import Mathlib

/-!
# terrain-navigation: trajectory containers and the planner callbacks

A shallow embedding of

* `terrain_planner/include/terrain_planner/trajectory.h`
  (`State`, `Trajectory`, `TrajectorySegments`), and
* `terrain_planner/src/terrain_planner.cpp`
  (the callbacks of `TerrainPlanner`).

C++ `double` is modelled by `Double`, an embedding of IEEE 754 binary64 in which
every operation rounds its exact result to the nearest representable number, ties to
even; `std::vector` is modelled by `List` (`push_back` appends at the end,
`insert(begin(), x)` conses at the front), and member functions by functions on the
object's value. Functions with an undefined result in C++ (`back()` on an empty vector)
return `Option`.
-/

namespace TerrainNavigation

/-! ## binary64 -/

/-- Rounding of a rational to the nearest integer, ties to the even integer. -/
def roundHalfEven (y : ℚ) : ℤ :=
  if y - ⌊y⌋ < 1 / 2 then ⌊y⌋
  else if 1 / 2 < y - ⌊y⌋ then ⌊y⌋ + 1
  else if ⌊y⌋ % 2 = 0 then ⌊y⌋ else ⌊y⌋ + 1

/-- The exponent of the unit in the last place of binary64 at `x`: 52 below the binary
exponent of `x` (53 significant bits), and never below -1074, the exponent of the least
subnormal number. -/
def ulpExp (x : ℚ) : ℤ :=
  max (Int.log 2 |x| - 52) (-1074)

/-- A value of the C++ type `double`: a finite number, an infinity or a NaN. The sign of
zero and the payload of a NaN are not modelled; no operation of the planner (sum,
product, comparison) depends on them. The finite values that are binary64 numbers are
those with `Double.IsBinary64`; the operations below round their exact results to the
grid of binary64. -/
inductive Double where
  | finite (q : ℚ)
  | posInf
  | negInf
  | nan
deriving DecidableEq, Repr

/-- The multiple of the unit in the last place at `x` that is nearest to `x`, ties to
the even multiple. -/
def Double.nearest (x : ℚ) : ℚ :=
  roundHalfEven (x / 2 ^ ulpExp x) * 2 ^ ulpExp x

/-- Rounding of an exact result to binary64, to nearest, ties to even: the nearest
multiple of the unit in the last place, and an infinity when that reaches `2^1024`. -/
def Double.round (x : ℚ) : Double :=
  if 2 ^ 1024 ≤ Double.nearest x then .posInf
  else if Double.nearest x ≤ -2 ^ 1024 then .negInf
  else .finite (Double.nearest x)

/-- The sum `a + b` of two `double`s. -/
def Double.add : Double → Double → Double
  | .finite x, .finite y => Double.round (x + y)
  | .nan, _ => .nan
  | _, .nan => .nan
  | .posInf, .negInf => .nan
  | .negInf, .posInf => .nan
  | .posInf, _ => .posInf
  | _, .posInf => .posInf
  | .negInf, _ => .negInf
  | _, .negInf => .negInf

/-- The product `a * b` of two `double`s. -/
def Double.mul : Double → Double → Double
  | .finite x, .finite y => Double.round (x * y)
  | .nan, _ => .nan
  | _, .nan => .nan
  | .finite x, .posInf => if x = 0 then .nan else if 0 < x then .posInf else .negInf
  | .finite x, .negInf => if x = 0 then .nan else if 0 < x then .negInf else .posInf
  | .posInf, .finite y => if y = 0 then .nan else if 0 < y then .posInf else .negInf
  | .negInf, .finite y => if y = 0 then .nan else if 0 < y then .negInf else .posInf
  | .posInf, .posInf => .posInf
  | .negInf, .negInf => .posInf
  | .posInf, .negInf => .negInf
  | .negInf, .posInf => .negInf

/-- The comparison `a < b` of two `double`s; false when one of them is a NaN. -/
def Double.lt : Double → Double → Bool
  | .finite x, .finite y => decide (x < y)
  | .nan, _ => false
  | _, .nan => false
  | .negInf, .negInf => false
  | .negInf, _ => true
  | _, .negInf => false
  | .posInf, _ => false
  | _, .posInf => true

/-- The comparison `a <= b` of two `double`s; false when one of them is a NaN. -/
def Double.le : Double → Double → Bool
  | .finite x, .finite y => decide (x ≤ y)
  | .nan, _ => false
  | _, .nan => false
  | .negInf, _ => true
  | _, .posInf => true
  | .posInf, _ => false
  | _, .negInf => false

/-- The conversion of an integer to `double`, `static_cast<double>(i)`. -/
def Double.ofInt (i : ℤ) : Double :=
  Double.round i

/-- A `double` that is a binary64 number: rounding leaves a finite value as it is. -/
def Double.IsBinary64 : Double → Prop
  | .finite q => Double.round q = .finite q
  | _ => True

instance : Add Double := ⟨Double.add⟩

instance : Mul Double := ⟨Double.mul⟩

instance : LT Double := ⟨fun a b => Double.lt a b = true⟩

instance : LE Double := ⟨fun a b => Double.le a b = true⟩

instance (a b : Double) : Decidable (a < b) :=
  inferInstanceAs (Decidable (Double.lt a b = true))

instance (a b : Double) : Decidable (a ≤ b) :=
  inferInstanceAs (Decidable (Double.le a b = true))

/-- An integer literal of type `double`, as `0` or `100` (exact below `2^53`). -/
instance (n : ℕ) : OfNat Double n := ⟨.finite n⟩

/-- A decimal literal of type `double`, as `0.4`: the binary64 number nearest to the
decimal value. -/
instance : OfScientific Double :=
  ⟨fun mantissa exponentSign decimalExponent =>
    Double.round (OfScientific.ofScientific mantissa exponentSign decimalExponent : ℚ)⟩

instance (d : Double) : Decidable d.IsBinary64 := by
  cases d <;> unfold Double.IsBinary64 <;> infer_instance

/-! ## ROS time -/

/-- The model of `ros::Time`, by the count of nanoseconds since the epoch that
`toNSec()` returns. -/
structure Time where
  toNSec : ℕ
deriving DecidableEq, Repr

instance (n : ℕ) : OfNat Time n := ⟨⟨n⟩⟩

/-- The model of `ros::Duration` in its normal form: `sec` whole seconds and `nsec`
nanoseconds with `0 ≤ nsec < 10^9`. The two fields are `int32_t` in ROS; differences of
times of more than `2^31` seconds, for which ROS throws, are outside the model. -/
structure Duration where
  sec : ℤ
  nsec : ℤ
deriving DecidableEq, Repr

/-- The difference `a - b` of two `ros::Time`s, in normal form. -/
def Time.sub (a b : Time) : Duration :=
  { sec := ((a.toNSec : ℤ) - (b.toNSec : ℤ)) / 1000000000
    nsec := ((a.toNSec : ℤ) - (b.toNSec : ℤ)) % 1000000000 }

/-- The member `ros::Duration::toSec()`:
`static_cast<double>(sec) + 1e-9 * static_cast<double>(nsec)`. -/
def Duration.toSec (d : Duration) : Double :=
  Double.ofInt d.sec + 1e-9 * Double.ofInt d.nsec

/-! ## Eigen vectors -/

/-- The model of `Eigen::Vector3d`: three scalar components. -/
structure Vector3d where
  x : Double
  y : Double
  z : Double
deriving DecidableEq, Repr

/-- The model of `Eigen::Vector4d`; `c0 .. c3` are the coefficients `(0) .. (3)`. -/
structure Vector4d where
  c0 : Double
  c1 : Double
  c2 : Double
  c3 : Double
deriving DecidableEq, Repr

/-- Component-wise sum, `a + b` on `Eigen::Vector3d`. -/
def Vector3d.add (a b : Vector3d) : Vector3d :=
  ⟨a.x + b.x, a.y + b.y, a.z + b.z⟩

/-- Product with a scalar on the right, `a * k` on `Eigen::Vector3d`. -/
def Vector3d.scale (a : Vector3d) (k : Double) : Vector3d :=
  ⟨a.x * k, a.y * k, a.z * k⟩

/-- The zero vector. -/
def Vector3d.zero : Vector3d := ⟨0, 0, 0⟩

/-- A vector whose three components are binary64 numbers. -/
def Vector3d.IsBinary64 (a : Vector3d) : Prop :=
  a.x.IsBinary64 ∧ a.y.IsBinary64 ∧ a.z.IsBinary64

/-! ## trajectory.h -/

/-- The model of `struct State`. -/
structure State where
  position : Vector3d
  velocity : Vector3d
  attitude : Vector4d
deriving DecidableEq, Repr

/-- The model of `class Trajectory`: its three public data members. -/
structure Trajectory where
  states : List State
  utility : Double
  validity : Bool
deriving DecidableEq, Repr

/-- The constructor `Trajectory(){}` with the default member initialisers
`utility{0.0}` and `validity{false}`; `states` starts empty. -/
def Trajectory.new : Trajectory :=
  { states := [], utility := 0, validity := false }

/-- The accessor `Trajectory::position()`: the loop pushes the position of every
state, in order, onto an initially empty vector. -/
def Trajectory.position (t : Trajectory) : List Vector3d :=
  t.states.foldl (fun pos_vector state => pos_vector ++ [state.position]) []

/-- The accessor `Trajectory::velocity()`. -/
def Trajectory.velocity (t : Trajectory) : List Vector3d :=
  t.states.foldl (fun vel_vector state => vel_vector ++ [state.velocity]) []

/-- The accessor `Trajectory::valid()`. -/
def Trajectory.valid (t : Trajectory) : Bool :=
  t.validity

/-- The model of `class TrajectorySegments`: its four public data members. -/
structure TrajectorySegments where
  states : List State
  utility : Double
  validity : Bool
  segments : List Trajectory
deriving DecidableEq, Repr

/-- The constructor `TrajectorySegments(){}`. -/
def TrajectorySegments.new : TrajectorySegments :=
  { states := [], utility := 0, validity := false, segments := [] }

/-- The accessor `TrajectorySegments::position()`: for every segment, in order, the
segment's own positions are inserted at the end of the result. -/
def TrajectorySegments.position (c : TrajectorySegments) : List Vector3d :=
  c.segments.foldl (fun pos_vector segment => pos_vector ++ segment.position) []

/-- The accessor `TrajectorySegments::velocity()`. -/
def TrajectorySegments.velocity (c : TrajectorySegments) : List Vector3d :=
  c.segments.foldl (fun vel_vector segment => vel_vector ++ segment.velocity) []

/-- The member `resetSegments()`: `segments.clear()`. -/
def TrajectorySegments.resetSegments (c : TrajectorySegments) : TrajectorySegments :=
  { c with segments := [] }

/-- The member `appendSegment(trajectory)`: `segments.push_back(trajectory)`. -/
def TrajectorySegments.appendSegment (c : TrajectorySegments) (trajectory : Trajectory) :
    TrajectorySegments :=
  { c with segments := c.segments ++ [trajectory] }

/-- The member `lastSegment()`: `segments.back()`, which has no defined result on an
empty vector. -/
def TrajectorySegments.lastSegment (c : TrajectorySegments) : Option Trajectory :=
  c.segments.getLast?

/-- The member `TrajectorySegments::valid()`. -/
def TrajectorySegments.valid (c : TrajectorySegments) : Bool :=
  c.validity

/-- Appending a list of trajectories one after the other, in list order. -/
def TrajectorySegments.appendAll (c : TrajectorySegments) (ts : List Trajectory) :
    TrajectorySegments :=
  ts.foldl TrajectorySegments.appendSegment c

/-- A call a client can make on a `TrajectorySegments` that changes it. -/
inductive SegmentsCall where
  | appendSegment (trajectory : Trajectory)
  | resetSegments
deriving DecidableEq, Repr

/-- The effect of one call. -/
def SegmentsCall.apply (c : TrajectorySegments) : SegmentsCall → TrajectorySegments
  | .appendSegment trajectory => c.appendSegment trajectory
  | .resetSegments => c.resetSegments

/-- The container after a sequence of calls, starting from `c`. -/
def TrajectorySegments.run (c : TrajectorySegments) (calls : List SegmentsCall) :
    TrajectorySegments :=
  calls.foldl SegmentsCall.apply c

/-- The trajectories handed to `appendSegment` in a sequence of calls. -/
def appended : List SegmentsCall → List Trajectory
  | [] => []
  | .appendSegment trajectory :: calls => trajectory :: appended calls
  | .resetSegments :: calls => appended calls

/-! ## Messages -/

/-- The model of `geometry_msgs::Point`. -/
structure Point where
  x : Double
  y : Double
  z : Double
deriving DecidableEq, Repr

/-- The model of `geometry_msgs::Vector3`. -/
structure Vector3 where
  x : Double
  y : Double
  z : Double
deriving DecidableEq, Repr

/-- The model of `geometry_msgs::Quaternion`. -/
structure Quaternion where
  x : Double
  y : Double
  z : Double
  w : Double
deriving DecidableEq, Repr

/-- The model of `geometry_msgs::Pose`. -/
structure Pose where
  position : Point
  orientation : Quaternion
deriving DecidableEq, Repr

/-- The model of `geometry_msgs::PoseStamped`; the header (time stamp and frame id) is
not modelled. -/
structure PoseStamped where
  pose : Pose
deriving DecidableEq, Repr

/-- The model of `geometry_msgs::Twist`. -/
structure Twist where
  linear : Vector3
  angular : Vector3
deriving DecidableEq, Repr

/-- The model of `geometry_msgs::TwistStamped`, without its header. -/
structure TwistStamped where
  twist : Twist
deriving DecidableEq, Repr

/-- Modelled from the spec: `toEigen` on a `geometry_msgs::Point` is declared in
`terrain_planner.h`, which is not among the sources; a position observation is read
component by component. -/
def Point.toEigen (p : Point) : Vector3d := ⟨p.x, p.y, p.z⟩

/-- Modelled from the spec: `toEigen` on a `geometry_msgs::Vector3` is declared in
`terrain_planner.h`, which is not among the sources; a linear velocity observation is
read component by component. -/
def Vector3.toEigen (v : Vector3) : Vector3d := ⟨v.x, v.y, v.z⟩

/-- Modelled from the spec: `vector3d2PoseStampedMsg` is declared in
`terrain_planner.h`, which is not among the sources; the pose carries the position and
the orientation it is given, the orientation in the order `(w, x, y, z)` that
`mavposeCallback` uses for attitudes. -/
def vector3d2PoseStampedMsg (position : Vector3d) (orientation : Vector4d) : PoseStamped :=
  { pose :=
      { position := ⟨position.x, position.y, position.z⟩
        orientation :=
          { w := orientation.c0, x := orientation.c1, y := orientation.c2,
            z := orientation.c3 } } }

/-- Modelled from the spec: `trajectory2MarkerMsg` is declared in `terrain_planner.h`,
which is not among the sources; a candidate marker is represented by the maneuver and
the id it is built from. -/
structure ManeuverMarker where
  maneuver : Trajectory
  id : ℤ
deriving DecidableEq, Repr

/-- What a callback sends out, one constructor per message (or per call of an
output-only helper), in the order of sending. -/
inductive Published where
  /-- The `mavros_msgs::PositionTarget` on `mavros/setpoint_raw/local`. -/
  | positionSetpoint (position : Vector3d)
  /-- The `DELETEALL` marker on `position_target`. -/
  | positionTargetClear
  /-- The `ADD` sphere marker on `position_target`. -/
  | positionTarget (position : Vector3d)
  /-- The call `publishVehiclePose(position, attitude)`; the mesh marker it builds
  (a quaternion product with floating-point trigonometry) is not modelled. -/
  | vehiclePose (position : Vector3d) (attitude : Vector4d)
  /-- The `nav_msgs::Path` on `geometric_controller/path`. -/
  | poseHistory (poses : List PoseStamped)
  /-- The `nav_msgs::Path` on `vehicle_path`. -/
  | vehiclePath (poses : List PoseStamped)
  /-- The `DELETEALL` marker array on `visualization_marker`. -/
  | candidateManeuversClear
  /-- The marker array of the candidates on `visualization_marker`. -/
  | candidateManeuvers (markers : List ManeuverMarker)
  /-- The grid map message on `grid_map`, with the time stamp, in nanoseconds, set on
  the map. -/
  | gridMap (stamp : ℕ)
deriving DecidableEq, Repr

/-- The position setpoints among the messages sent. -/
def setpoints : List Published → List Vector3d
  | [] => []
  | .positionSetpoint position :: rest => position :: setpoints rest
  | _ :: rest => setpoints rest

/-! ## terrain_planner.cpp -/

/-- The interface of `ManeuverLibrary` as `TerrainPlanner` uses it. The class is not
among the sources, so its member functions are parameters acting on a library state
`σ`; `Solve` and `getRandomPrimitive` may change that state (candidate bookkeeping,
the random draw). -/
structure ManeuverLibrary (σ : Type) where
  generateMotionPrimitives : σ → Vector3d → Vector3d → σ
  Solve : σ → Bool × σ
  getRandomPrimitive : σ → Trajectory × σ
  getMotionPrimitives : σ → List Trajectory
  /-- The call `getGridMap().setTimestamp(t)`, `t` in nanoseconds. -/
  setGridMapTimestamp : σ → ℕ → σ

/-- The data members of `TerrainPlanner` that the callbacks read or write
(publishers, subscribers and timers are not state of the model). -/
structure TerrainPlanner (σ : Type) where
  vehicle_position_ : Vector3d
  vehicle_velocity_ : Vector3d
  vehicle_attitude_ : Vector4d
  plan_time_ : Time
  reference_primitive_ : Trajectory
  posehistory_vector_ : List PoseStamped
  maneuver_library_ : σ

/-- The helper `publishPositionSetpoints(position)`: the setpoint message, then the
two markers. -/
def publishPositionSetpoints (position : Vector3d) : List Published :=
  [.positionSetpoint position, .positionTargetClear, .positionTarget position]

/-- The helper `publishVehiclePose(position, attitude)`. -/
def publishVehiclePose (position : Vector3d) (attitude : Vector4d) : List Published :=
  [.vehiclePose position attitude]

/-- The local `int posehistory_window_ = 20000` of `publishPoseHistory`. -/
def posehistory_window_ : ℕ := 20000

/-- The member `publishPoseHistory()`: the current position is inserted at the front
of the history, the last entry is popped when the size exceeds the window, and the
history is published. -/
def publishPoseHistory {σ : Type} (s : TerrainPlanner σ) : TerrainPlanner σ × List Published :=
  let vehicle_attitude : Vector4d := ⟨1, 0, 0, 0⟩
  let inserted := vector3d2PoseStampedMsg s.vehicle_position_ vehicle_attitude ::
    s.posehistory_vector_
  let posehistory := if inserted.length > posehistory_window_ then inserted.dropLast else inserted
  ({ s with posehistory_vector_ := posehistory }, [.poseHistory posehistory])

/-- The loop of `cmdloopCallback` over the positions that are left, with the current
value of the counter `i`: the first position for which `time_since_start < 0.1 * i`
holds in `double` arithmetic is published and the loop stops. The counter `int i` is
modelled without overflow, which a trajectory of fewer than `2^31 - 1` positions cannot
cause. -/
def cmdloopCallback.loop (time_since_start : Double) : List Vector3d → ℕ → List Published
  | [], _ => []
  | position :: rest, i =>
    if time_since_start < 0.1 * Double.ofInt i then publishPositionSetpoints position
    else cmdloopCallback.loop time_since_start rest (i + 1)

/-- The loop of `cmdloopCallback` read in exact arithmetic, for comparison with
`cmdloopCallback.loop`: the slot test compares the exact time `t` with the exact product
`i / 10`. The code computes `0.1 * i` in binary64 instead, where the bound of a slot is
the rounded product of the binary64 number `0.1` and `i`. -/
def cmdloopCallback.loopExact (t : ℚ) : List Vector3d → ℕ → List Published
  | [], _ => []
  | position :: rest, i =>
    if t < 1 / 10 * (i : ℚ) then publishPositionSetpoints position
    else cmdloopCallback.loopExact t rest (i + 1)

/-- The member `cmdloopCallback`, run when `ros::Time::now()` is `now`. -/
def cmdloopCallback {σ : Type} (now : Time) (s : TerrainPlanner σ) :
    TerrainPlanner σ × List Published :=
  let time_since_start := (now.sub s.plan_time_).toSec
  let trajectory := s.reference_primitive_.position
  let out₁ := cmdloopCallback.loop time_since_start trajectory 1
  let out₂ := publishVehiclePose s.vehicle_position_ s.vehicle_attitude_
  let (s₁, out₃) := publishPoseHistory s
  (s₁, out₁ ++ out₂ ++ out₃)

/-- The member `publishTrajectory(trajectory)`: every pose is inserted at the front of
the pose vector, which is then published. -/
def publishTrajectory (trajectory : List Vector3d) : List Published :=
  let orientation : Vector4d := ⟨1, 0, 0, 0⟩
  let posestampedhistory_vector := trajectory.foldl
    (fun poses pos => vector3d2PoseStampedMsg pos orientation :: poses) []
  [.vehiclePath posestampedhistory_vector]

/-- The loop of `publishCandidateManeuvers`: every marker is inserted at the front,
the counter `i` goes up by one per candidate. -/
def publishCandidateManeuvers.loop :
    List Trajectory → ℤ → List ManeuverMarker → List ManeuverMarker
  | [], _, maneuver_library_vector => maneuver_library_vector
  | maneuver :: rest, i, maneuver_library_vector =>
    publishCandidateManeuvers.loop rest (i + 1) (⟨maneuver, i⟩ :: maneuver_library_vector)

/-- The member `publishCandidateManeuvers(candidate_maneuvers)`. -/
def publishCandidateManeuvers (candidate_maneuvers : List Trajectory) : List Published :=
  [.candidateManeuversClear,
   .candidateManeuvers (publishCandidateManeuvers.loop candidate_maneuvers 0 [])]

/-- The member `MapPublishOnce()`, acting on the library that holds the grid map, run
when `ros::Time::now()` is `now`: the map is stamped with `now.toNSec()`. -/
def MapPublishOnce {σ : Type} (L : ManeuverLibrary σ) (now : Time) (lib : σ) :
    σ × List Published :=
  (L.setGridMapTimestamp lib now.toNSec, [.gridMap now.toNSec])

/-- The member `statusloopCallback`; `now` is what `ros::Time::now()` returns when the
plan time is taken and `map_now` what it returns later in `MapPublishOnce`. The value
`result` of `Solve()` is stored and not read again. -/
def statusloopCallback {σ : Type} (L : ManeuverLibrary σ) (now map_now : Time)
    (s : TerrainPlanner σ) : TerrainPlanner σ × List Published :=
  let start_position := s.vehicle_position_.add (s.vehicle_velocity_.scale 0.4)
  let lib₁ := L.generateMotionPrimitives s.maneuver_library_ start_position s.vehicle_velocity_
  let plan_time := now
  let (_result, lib₂) := L.Solve lib₁
  let (reference_primitive, lib₃) := L.getRandomPrimitive lib₂
  let out₁ := publishCandidateManeuvers (L.getMotionPrimitives lib₃)
  let out₂ := publishTrajectory reference_primitive.position
  let (lib₄, out₃) := MapPublishOnce L map_now lib₃
  ({ s with
      plan_time_ := plan_time
      reference_primitive_ := reference_primitive
      maneuver_library_ := lib₄ },
   out₁ ++ out₂ ++ out₃)

/-- The member `mavposeCallback(msg)`. -/
def mavposeCallback {σ : Type} (msg : PoseStamped) (s : TerrainPlanner σ) : TerrainPlanner σ :=
  { s with
    vehicle_position_ := msg.pose.position.toEigen
    vehicle_attitude_ :=
      { c0 := msg.pose.orientation.w, c1 := msg.pose.orientation.x,
        c2 := msg.pose.orientation.y, c3 := msg.pose.orientation.z } }

/-- The member `mavtwistCallback(msg)`. -/
def mavtwistCallback {σ : Type} (msg : TwistStamped) (s : TerrainPlanner σ) : TerrainPlanner σ :=
  { s with vehicle_velocity_ := msg.twist.linear.toEigen }

/-- A call the maneuver library receives. -/
inductive LibraryCall where
  | generateMotionPrimitives (start_position velocity : Vector3d)
  | Solve
  | getRandomPrimitive
  | setGridMapTimestamp (stamp : ℕ)
deriving DecidableEq, Repr

/-- A maneuver library that keeps the log of the calls that change it, whose `Solve`
always answers `result`, whose selection always answers `selected` and whose
candidate set is `candidates`. -/
def recordingLibrary (result : Bool) (selected : Trajectory) (candidates : List Trajectory) :
    ManeuverLibrary (List LibraryCall) where
  generateMotionPrimitives log start_position velocity :=
    log ++ [.generateMotionPrimitives start_position velocity]
  Solve log := (result, log ++ [.Solve])
  getRandomPrimitive log := (selected, log ++ [.getRandomPrimitive])
  getMotionPrimitives _ := candidates
  setGridMapTimestamp log stamp := log ++ [.setGridMapTimestamp stamp]

/-! ## Sample data -/

/-- A reference trajectory of three states along the x axis, marked valid. -/
def sampleTrajectory : Trajectory :=
  { states :=
      [⟨⟨0, 0, 100⟩, ⟨10, 0, 0⟩, ⟨1, 0, 0, 0⟩⟩,
       ⟨⟨1, 0, 100⟩, ⟨10, 0, 0⟩, ⟨1, 0, 0, 0⟩⟩,
       ⟨⟨2, 0, 100⟩, ⟨10, 0, 0⟩, ⟨1, 0, 0, 0⟩⟩]
    utility := 1
    validity := true }

/-- A planner that flies `sampleTrajectory`, planned at time 0, with a library that
has received no call yet. -/
def samplePlanner : TerrainPlanner (List LibraryCall) :=
  { vehicle_position_ := ⟨0, 0, 100⟩
    vehicle_velocity_ := ⟨10, 0, 5⟩
    vehicle_attitude_ := ⟨1, 0, 0, 0⟩
    plan_time_ := 0
    reference_primitive_ := sampleTrajectory
    posehistory_vector_ := []
    maneuver_library_ := [] }

/-- The planner `samplePlanner` at rest: the estimated velocity is zero. -/
def restingPlanner : TerrainPlanner (List LibraryCall) :=
  { samplePlanner with vehicle_velocity_ := Vector3d.zero }

/-- A planner at the origin with the estimated velocity `(3, 0.5, -7)`, for which the
products with the lookahead are rounded. -/
def roundingPlanner : TerrainPlanner (List LibraryCall) :=
  { samplePlanner with
    vehicle_position_ := ⟨0, 0, 0⟩
    vehicle_velocity_ := ⟨3, .finite (1 / 2), .finite (-7)⟩ }

/-- A reference trajectory of thirteen states, at x = 0, 1, .., 12. -/
def longTrajectory : Trajectory :=
  { states := (List.range 13).map
      (fun i => ⟨⟨.finite i, 0, 0⟩, ⟨10, 0, 0⟩, ⟨1, 0, 0, 0⟩⟩)
    utility := 1
    validity := true }

/-- The planner `samplePlanner` flying `longTrajectory`. -/
def longPlanner : TerrainPlanner (List LibraryCall) :=
  { samplePlanner with reference_primitive_ := longTrajectory }

/-- The poses of the `vehicle_path` messages among the messages sent. -/
def vehiclePathPoses : List Published → List PoseStamped
  | [] => []
  | .vehiclePath poses :: rest => poses ++ vehiclePathPoses rest
  | _ :: rest => vehiclePathPoses rest

/-- The pose history after `publishPoseHistory` has run once for each of the given
estimated vehicle positions, in order, starting from the planner `s`. -/
def poseHistoryAfter {σ : Type} (s : TerrainPlanner σ) (positions : List Vector3d) :
    List PoseStamped :=
  (positions.foldl (fun t position =>
    (publishPoseHistory { t with vehicle_position_ := position }).1) s).posehistory_vector_

/-- The planner `samplePlanner` with a full pose history: 20000 entries at the
origin. -/
def fullHistoryPlanner : TerrainPlanner (List LibraryCall) :=
  { samplePlanner with
    posehistory_vector_ :=
      List.replicate 20000 (vector3d2PoseStampedMsg Vector3d.zero ⟨1, 0, 0, 0⟩) }

/-! ## Lemmas on the accessors -/

theorem foldl_push_eq_append_map {α β : Type} (f : α → β) (l : List α) (acc : List β) :
    l.foldl (fun out a => out ++ [f a]) acc = acc ++ l.map f := by
  induction l generalizing acc with
  | nil => simp
  | cons a l ih => simp [ih]

theorem foldl_insert_eq_append_flatten {α β : Type} (f : α → List β) (l : List α)
    (acc : List β) :
    l.foldl (fun out a => out ++ f a) acc = acc ++ (l.map f).flatten := by
  induction l generalizing acc with
  | nil => simp
  | cons a l ih => simp [ih]

theorem Trajectory.position_eq_map (t : Trajectory) :
    t.position = t.states.map State.position := by
  simp [Trajectory.position, foldl_push_eq_append_map]

theorem Trajectory.velocity_eq_map (t : Trajectory) :
    t.velocity = t.states.map State.velocity := by
  simp [Trajectory.velocity, foldl_push_eq_append_map]

theorem TrajectorySegments.position_eq_flatten (c : TrajectorySegments) :
    c.position = (c.segments.map Trajectory.position).flatten := by
  simp [TrajectorySegments.position, foldl_insert_eq_append_flatten]

theorem TrajectorySegments.appendAll_segments (c : TrajectorySegments) (ts : List Trajectory) :
    (c.appendAll ts).segments = c.segments ++ ts := by
  unfold TrajectorySegments.appendAll
  induction ts generalizing c with
  | nil => simp
  | cons t ts ih => simp [ih, TrajectorySegments.appendSegment]

/-- Every stored segment after a sequence of calls was stored before it or was handed
to `appendSegment` during it. -/
theorem TrajectorySegments.mem_run_segments (c : TrajectorySegments)
    (calls : List SegmentsCall) (segment : Trajectory)
    (h : segment ∈ (c.run calls).segments) :
    segment ∈ c.segments ∨ segment ∈ appended calls := by
  induction calls generalizing c with
  | nil => exact Or.inl h
  | cons call calls ih =>
    cases call with
    | appendSegment t =>
      have h₁ := ih (c.appendSegment t) h
      simp only [TrajectorySegments.appendSegment, List.mem_append, List.mem_singleton] at h₁
      simp only [appended, List.mem_cons]
      tauto
    | resetSegments =>
      have h₁ := ih c.resetSegments h
      simp only [TrajectorySegments.resetSegments, List.not_mem_nil, false_or] at h₁
      exact Or.inr h₁

/-! ## The trajectory containers -/

/-- C1: after `resetSegments` and then `appendSegment` of `t1 .. tN` in order, whatever
the container held before, `TrajectorySegments::position()` is the concatenation
`t1.position() ++ .. ++ tN.position()` (empty for `N = 0`), and `Trajectory::position()`
is the list of the positions of the states, in state order. -/
theorem position_roundtrip (c : TrajectorySegments) (ts : List Trajectory) :
    (c.resetSegments.appendAll ts).position = (ts.map Trajectory.position).flatten
    ∧ (c.resetSegments.appendAll []).position = []
    ∧ ∀ t : Trajectory, t.position = t.states.map State.position := by
  refine ⟨?_, ?_, Trajectory.position_eq_map⟩
  · rw [TrajectorySegments.position_eq_flatten, TrajectorySegments.appendAll_segments]
    simp [TrajectorySegments.resetSegments]
  · rw [TrajectorySegments.position_eq_flatten, TrajectorySegments.appendAll_segments]
    simp [TrajectorySegments.resetSegments]

/-- C3, as stated, fails: appending a freshly constructed trajectory, whose validity
is false, to a fresh container leaves a segment with validity false in `segments`. -/
theorem segments_valid_counterexample :
    (TrajectorySegments.new.run [.appendSegment Trajectory.new]).segments = [Trajectory.new]
    ∧ Trajectory.new.validity = false
    ∧ ¬ ∀ calls : List SegmentsCall,
        ∀ segment ∈ (TrajectorySegments.new.run calls).segments, segment.validity = true := by
  refine ⟨rfl, rfl, ?_⟩
  intro h
  have h₁ := h [.appendSegment Trajectory.new] Trajectory.new
    (by simp [TrajectorySegments.run, SegmentsCall.apply, TrajectorySegments.appendSegment,
      TrajectorySegments.new])
  simp [Trajectory.new] at h₁

/-- C3, amended: `appendSegment` stores the trajectory with the validity flag it
carries, so in a state reached from a fresh container by calls of `appendSegment` and
`resetSegments` in which every appended trajectory has validity true, every stored
segment has validity true. -/
theorem segments_valid_of_appended_valid (calls : List SegmentsCall)
    (h : ∀ t ∈ appended calls, t.validity = true) :
    (∀ segment ∈ (TrajectorySegments.new.run calls).segments, segment.validity = true)
    ∧ ∀ (c : TrajectorySegments) (t : Trajectory),
        (c.appendSegment t).lastSegment.map Trajectory.validity = some t.validity := by
  constructor
  · intro segment hs
    rcases TrajectorySegments.mem_run_segments _ calls segment hs with h₁ | h₁
    · simp [TrajectorySegments.new] at h₁
    · exact h segment h₁
  · intro c t
    simp [TrajectorySegments.appendSegment, TrajectorySegments.lastSegment]

/-- Witness of `segments_valid_of_appended_valid` on a run that appends a valid
trajectory, resets, and appends two valid trajectories. -/
theorem segments_valid_of_appended_valid_witness :
    (TrajectorySegments.new.run
        [.appendSegment ⟨[], 1, true⟩, .resetSegments, .appendSegment ⟨[], 2, true⟩,
          .appendSegment ⟨[], 3, true⟩]).segments = [⟨[], 2, true⟩, ⟨[], 3, true⟩]
    ∧ ∀ segment ∈ (TrajectorySegments.new.run
        [.appendSegment ⟨[], 1, true⟩, .resetSegments, .appendSegment ⟨[], 2, true⟩,
          .appendSegment ⟨[], 3, true⟩]).segments, segment.validity = true :=
  ⟨by simp [TrajectorySegments.run, SegmentsCall.apply, TrajectorySegments.appendSegment,
      TrajectorySegments.resetSegments, TrajectorySegments.new],
   (segments_valid_of_appended_valid
      [.appendSegment ⟨[], 1, true⟩, .resetSegments, .appendSegment ⟨[], 2, true⟩,
        .appendSegment ⟨[], 3, true⟩]
      (by simp [appended])).1⟩

/-- C5: `appendSegment` and `resetSegments` leave the aggregate fields `validity`,
`utility` and `states` of the container unchanged; `valid()` returns the same before
and after, and it is the same for any two containers that differ only in their stored
segments. -/
theorem aggregate_fields_unchanged (c : TrajectorySegments) (t : Trajectory) :
    ((c.appendSegment t).validity = c.validity
      ∧ (c.appendSegment t).utility = c.utility
      ∧ (c.appendSegment t).states = c.states)
    ∧ (c.resetSegments.validity = c.validity
      ∧ c.resetSegments.utility = c.utility
      ∧ c.resetSegments.states = c.states)
    ∧ (c.appendSegment t).valid = c.valid
    ∧ c.resetSegments.valid = c.valid
    ∧ ∀ segments : List Trajectory,
        TrajectorySegments.valid { c with segments := segments } = c.valid := by
  simp [TrajectorySegments.appendSegment, TrajectorySegments.resetSegments,
    TrajectorySegments.valid]

/-- C6: right after `appendSegment(t)`, `lastSegment()` returns `t`; the segments
stored before are the front part of the new segment list, unchanged and in order;
`lastSegment()` has a result exactly when there is at least one segment, so none on a
fresh or a just-reset container. -/
theorem lastSegment_appendSegment (c : TrajectorySegments) (t : Trajectory) :
    (c.appendSegment t).lastSegment = some t
    ∧ (c.appendSegment t).segments = c.segments ++ [t]
    ∧ (c.appendSegment t).segments.take c.segments.length = c.segments
    ∧ (c.lastSegment.isSome = true ↔ c.segments ≠ [])
    ∧ TrajectorySegments.new.lastSegment = none
    ∧ c.resetSegments.lastSegment = none := by
  refine ⟨?_, rfl, ?_, ?_, rfl, rfl⟩
  · simp [TrajectorySegments.appendSegment, TrajectorySegments.lastSegment]
  · simp [TrajectorySegments.appendSegment]
  · simp [TrajectorySegments.lastSegment]

/-- C9: a freshly constructed `Trajectory` has no states, utility 0 and validity
false, so `valid()` is false and `position()` and `velocity()` are empty; for every
trajectory `valid()` is the value of the field `validity`. -/
theorem trajectory_new_defaults :
    Trajectory.new.states = []
    ∧ Trajectory.new.utility = 0
    ∧ Trajectory.new.validity = false
    ∧ Trajectory.new.valid = false
    ∧ Trajectory.new.position = []
    ∧ Trajectory.new.velocity = []
    ∧ ∀ t : Trajectory, t.valid = t.validity :=
  ⟨rfl, rfl, rfl, rfl, rfl, rfl, fun _ => rfl⟩

/-! ## Rounding to binary64 -/

theorem roundHalfEven_mono {y y' : ℚ} (h : y ≤ y') : roundHalfEven y ≤ roundHalfEven y' := by
  have hf : ⌊y⌋ ≤ ⌊y'⌋ := Int.floor_mono h
  have h₁ : roundHalfEven y ≤ ⌊y⌋ + 1 := by
    unfold roundHalfEven
    split_ifs <;> omega
  have h₂ : ⌊y'⌋ ≤ roundHalfEven y' := by
    unfold roundHalfEven
    split_ifs <;> omega
  rcases lt_or_eq_of_le hf with hlt | heq
  · omega
  · unfold roundHalfEven
    rw [← heq]
    split_ifs <;> first | omega | (exfalso; linarith)

theorem roundHalfEven_intCast (m : ℤ) : roundHalfEven (m : ℚ) = m := by
  simp [roundHalfEven]

theorem two_zpow_pos (e : ℤ) : (0 : ℚ) < 2 ^ e := zpow_pos (by norm_num) e

theorem two_zpow_le {a b : ℤ} (h : a ≤ b) : (2 : ℚ) ^ a ≤ 2 ^ b :=
  zpow_le_zpow_right₀ (by norm_num) h

/-- A positive number lies below the power of two 53 places above its unit in the last
place. -/
theorem lt_two_zpow_ulpExp {x : ℚ} (hx : 0 < x) : x < 2 ^ (ulpExp x + 53) := by
  have h₁ : x < ((2 : ℕ) : ℚ) ^ (Int.log 2 x + 1) := Int.lt_zpow_succ_log_self (by norm_num) x
  have h₂ : Int.log 2 x + 1 ≤ ulpExp x + 53 := by
    unfold ulpExp
    rw [abs_of_pos hx]
    have := le_max_left (Int.log 2 x - 52) (-1074)
    omega
  exact lt_of_lt_of_le (by exact_mod_cast h₁) (two_zpow_le h₂)

/-- Above the subnormal range a positive number is at least the power of two 52 places
above its unit in the last place. -/
theorem two_zpow_ulpExp_le {x : ℚ} (hx : 0 < x) (hu : -1074 < ulpExp x) :
    2 ^ (ulpExp x + 52) ≤ x := by
  have h₁ : ((2 : ℕ) : ℚ) ^ Int.log 2 x ≤ x := Int.zpow_log_le_self (by norm_num) hx
  have h₂ : ulpExp x + 52 = Int.log 2 x := by
    unfold ulpExp at hu ⊢
    rw [abs_of_pos hx] at hu ⊢
    rcases max_cases (Int.log 2 x - 52) (-1074) with ⟨h, _⟩ | ⟨h, _⟩
    · rw [h]
      omega
    · rw [h] at hu
      omega
  rw [h₂]
  exact_mod_cast h₁

theorem ulpExp_mono {x y : ℚ} (hx : 0 < x) (hxy : x ≤ y) : ulpExp x ≤ ulpExp y := by
  unfold ulpExp
  rw [abs_of_pos hx, abs_of_pos (lt_of_lt_of_le hx hxy)]
  have := Int.log_mono_right (b := 2) hx hxy
  exact max_le_max (by omega) le_rfl

theorem nearest_zero : Double.nearest 0 = 0 := by
  simp [Double.nearest, roundHalfEven]

theorem nearest_nonneg {x : ℚ} (hx : 0 ≤ x) : 0 ≤ Double.nearest x := by
  unfold Double.nearest
  have h₁ : (0 : ℚ) ≤ x / 2 ^ ulpExp x := div_nonneg hx (two_zpow_pos _).le
  have h₂ : roundHalfEven 0 ≤ roundHalfEven (x / 2 ^ ulpExp x) := roundHalfEven_mono h₁
  have h₃ : roundHalfEven 0 = 0 := by simp [roundHalfEven]
  rw [h₃] at h₂
  exact mul_nonneg (by exact_mod_cast h₂) (two_zpow_pos _).le

/-- Rounding to the nearest multiple of the unit in the last place is monotone on the
non-negative numbers. -/
theorem nearest_mono {x y : ℚ} (hx : 0 ≤ x) (hxy : x ≤ y) :
    Double.nearest x ≤ Double.nearest y := by
  rcases eq_or_lt_of_le hx with h0 | hpos
  · rw [← h0, nearest_zero]
    exact nearest_nonneg (le_trans hx hxy)
  · have hypos : 0 < y := lt_of_lt_of_le hpos hxy
    rcases eq_or_lt_of_le (ulpExp_mono hpos hxy) with heq | hlt
    · unfold Double.nearest
      rw [← heq]
      have h₁ : x / 2 ^ ulpExp x ≤ y / 2 ^ ulpExp x :=
        div_le_div_of_nonneg_right hxy (two_zpow_pos _).le
      exact mul_le_mul_of_nonneg_right (by exact_mod_cast roundHalfEven_mono h₁)
        (two_zpow_pos _).le
    · have hxu : Double.nearest x ≤ 2 ^ (ulpExp x + 53) := by
        unfold Double.nearest
        have h₁ : x / 2 ^ ulpExp x ≤ ((2 ^ 53 : ℤ) : ℚ) := by
          rw [div_le_iff₀ (two_zpow_pos _)]
          have := lt_two_zpow_ulpExp hpos
          rw [zpow_add₀ (by norm_num : (2 : ℚ) ≠ 0)] at this
          push_cast
          rw [mul_comm]
          exact le_of_lt (by exact_mod_cast this)
        have h₂ := roundHalfEven_mono h₁
        rw [roundHalfEven_intCast] at h₂
        rw [zpow_add₀ (by norm_num : (2 : ℚ) ≠ 0), mul_comm ((2 : ℚ) ^ ulpExp x)]
        exact mul_le_mul_of_nonneg_right (by exact_mod_cast h₂) (two_zpow_pos _).le
      have hyu : 2 ^ (ulpExp y + 52) ≤ Double.nearest y := by
        unfold Double.nearest
        have hu : -1074 < ulpExp y := by
          have : -1074 ≤ ulpExp x := le_max_right _ _
          omega
        have h₁ : ((2 ^ 52 : ℤ) : ℚ) ≤ y / 2 ^ ulpExp y := by
          rw [le_div_iff₀ (two_zpow_pos _)]
          have := two_zpow_ulpExp_le hypos hu
          rw [zpow_add₀ (by norm_num : (2 : ℚ) ≠ 0)] at this
          push_cast
          rw [mul_comm]
          exact_mod_cast this
        have h₂ := roundHalfEven_mono h₁
        rw [roundHalfEven_intCast] at h₂
        rw [zpow_add₀ (by norm_num : (2 : ℚ) ≠ 0), mul_comm ((2 : ℚ) ^ ulpExp y)]
        exact mul_le_mul_of_nonneg_right (by exact_mod_cast h₂) (two_zpow_pos _).le
      have hmid : (2 : ℚ) ^ (ulpExp x + 53) ≤ 2 ^ (ulpExp y + 52) := two_zpow_le (by omega)
      linarith

theorem Double.round_mono {x y : ℚ} (hx : 0 ≤ x) (hxy : x ≤ y) :
    Double.round x ≤ Double.round y := by
  have h₁ := nearest_mono hx hxy
  have h₂ := nearest_nonneg hx
  show Double.le _ _ = true
  unfold Double.round
  split_ifs <;> simp only [Double.le, decide_eq_true_eq] <;> linarith

theorem Double.lt_of_le_of_lt {a b c : Double} (hab : a ≤ b) (hbc : b < c) : a < c := by
  change Double.le a b = true at hab
  change Double.lt b c = true at hbc
  show Double.lt a c = true
  cases a <;> cases b <;> cases c <;>
    first
    | (simp only [Double.le, Double.lt, decide_eq_true_eq, Bool.false_eq_true] at hab hbc ⊢
       linarith)
    | simp only [Double.le, Double.lt, decide_eq_true_eq, Bool.false_eq_true] at hab hbc ⊢

theorem Double.lt_of_lt_of_le {a b c : Double} (hab : a < b) (hbc : b ≤ c) : a < c := by
  change Double.lt a b = true at hab
  change Double.le b c = true at hbc
  show Double.lt a c = true
  cases a <;> cases b <;> cases c <;>
    first
    | (simp only [Double.le, Double.lt, decide_eq_true_eq, Bool.false_eq_true] at hab hbc ⊢
       linarith)
    | simp only [Double.le, Double.lt, decide_eq_true_eq, Bool.false_eq_true] at hab hbc ⊢

theorem Double.not_lt_of_le {a b : Double} (hab : a ≤ b) : ¬ b < a := by
  change Double.le a b = true at hab
  show ¬ Double.lt b a = true
  cases a <;> cases b <;>
    first
    | (simp only [Double.le, Double.lt, decide_eq_true_eq, Bool.false_eq_true,
        not_false_eq_true, not_lt] at hab ⊢
       exact hab)
    | simp only [Double.le, Double.lt, decide_eq_true_eq, Bool.false_eq_true,
        not_false_eq_true, not_lt] at hab ⊢

/-- The unit in the last place of a number in the binade `[2^E, 2^(E+1))`, `E` at least
the least normal exponent. -/
theorem ulpExp_eq {x : ℚ} (E : ℤ) (hE : -1022 ≤ E) (hlo : 2 ^ E ≤ |x|)
    (hhi : |x| < 2 ^ (E + 1)) : ulpExp x = E - 52 := by
  have hpos : 0 < |x| := lt_of_lt_of_le (two_zpow_pos E) hlo
  have h₁ : E ≤ Int.log 2 |x| :=
    (Int.zpow_le_iff_le_log (by norm_num) hpos).1 (by exact_mod_cast hlo)
  have h₂ : Int.log 2 |x| < E + 1 :=
    (Int.lt_zpow_iff_log_lt (by norm_num) hpos).1 (by exact_mod_cast hhi)
  unfold ulpExp
  rw [max_eq_left (by omega)]
  omega

/-- Rounding of a number in the binade `[2^E, 2^(E+1))` whose quotient by the unit in the
last place rounds to the integer `m`. -/
theorem Double.round_eq_of_binade {x : ℚ} (E m : ℤ) (hE : -1022 ≤ E) (hlo : 2 ^ E ≤ |x|)
    (hhi : |x| < 2 ^ (E + 1)) (hm : roundHalfEven (x / 2 ^ (E - 52)) = m)
    (hfin : |(m : ℚ) * 2 ^ (E - 52)| < 2 ^ 1024) :
    Double.round x = .finite (m * 2 ^ (E - 52)) := by
  have hn : Double.nearest x = m * 2 ^ (E - 52) := by
    unfold Double.nearest
    rw [ulpExp_eq E hE hlo hhi, hm]
  rw [abs_lt] at hfin
  unfold Double.round
  rw [hn, if_neg (by linarith [hfin.2]), if_neg (by linarith [hfin.1])]

/-- A number `m * 2^e` with fewer than 54 significant bits and an exponent in the range
of binary64 is a binary64 number: rounding leaves it as it is. -/
theorem Double.round_intScaled (m e : ℤ) (hm : |m| < 2 ^ 53) (he₁ : -1074 ≤ e)
    (he₂ : e ≤ 971) : Double.round (m * 2 ^ e) = .finite (m * 2 ^ e) := by
  have hn : Double.nearest ((m : ℚ) * 2 ^ e) = m * 2 ^ e := by
    rcases eq_or_ne m 0 with h0 | hne
    · simp [h0, nearest_zero]
    · have hmq : |(m : ℚ)| < 2 ^ 53 := by exact_mod_cast hm
      have habs : |(m : ℚ) * 2 ^ e| = |(m : ℚ)| * 2 ^ e := by
        rw [abs_mul, abs_of_pos (two_zpow_pos e)]
      have hpos : 0 < |(m : ℚ) * 2 ^ e| := by
        rw [habs]
        exact mul_pos (abs_pos.2 (by exact_mod_cast hne)) (two_zpow_pos e)
      have hlt : |(m : ℚ) * 2 ^ e| < 2 ^ (e + 53) := by
        rw [habs, zpow_add₀ (by norm_num : (2 : ℚ) ≠ 0), mul_comm ((2 : ℚ) ^ e)]
        exact mul_lt_mul_of_pos_right (by exact_mod_cast hmq) (two_zpow_pos e)
      have hlog : Int.log 2 |(m : ℚ) * 2 ^ e| < e + 53 :=
        (Int.lt_zpow_iff_log_lt (by norm_num) hpos).1 (by exact_mod_cast hlt)
      have hu : ulpExp ((m : ℚ) * 2 ^ e) ≤ e := by
        unfold ulpExp
        exact max_le (by omega) he₁
      unfold Double.nearest
      generalize ulpExp ((m : ℚ) * 2 ^ e) = u at hu
      obtain ⟨k, hk⟩ : ∃ k : ℕ, e = u + k := ⟨(e - u).toNat, by omega⟩
      have hq : (m : ℚ) * 2 ^ e / 2 ^ u = ((m * 2 ^ k : ℤ) : ℚ) := by
        rw [hk, zpow_add₀ (by norm_num : (2 : ℚ) ≠ 0), zpow_natCast]
        push_cast
        field_simp
        ring
      rw [hq, roundHalfEven_intCast, hk, zpow_add₀ (by norm_num : (2 : ℚ) ≠ 0), zpow_natCast]
      push_cast
      ring
  have hbound : |(m : ℚ) * 2 ^ e| < 2 ^ 1024 := by
    have hmq : |(m : ℚ)| < 2 ^ 53 := by exact_mod_cast hm
    have h₁ : (2 : ℚ) ^ e ≤ 2 ^ (971 : ℤ) := two_zpow_le he₂
    rw [abs_mul, abs_of_pos (two_zpow_pos e)]
    calc |(m : ℚ)| * 2 ^ e ≤ |(m : ℚ)| * 2 ^ (971 : ℤ) :=
          mul_le_mul_of_nonneg_left h₁ (abs_nonneg _)
      _ < 2 ^ 53 * 2 ^ (971 : ℤ) := mul_lt_mul_of_pos_right hmq (two_zpow_pos _)
      _ = 2 ^ 1024 := by norm_num
  rw [abs_lt] at hbound
  unfold Double.round
  rw [hn, if_neg (by linarith [hbound.2]), if_neg (by linarith [hbound.1])]

/-- The conversion of an integer of fewer than 54 bits is exact. -/
theorem Double.ofInt_eq (i : ℤ) (hi : |i| < 2 ^ 53) : Double.ofInt i = .finite i := by
  have h := Double.round_intScaled i 0 hi (by norm_num) (by norm_num)
  simpa [Double.ofInt] using h

/-- The literal `0.1` is the binary64 number `3602879701896397 / 2^55`. -/
theorem Double.lit_tenth : (0.1 : Double) = .finite (3602879701896397 / 36028797018963968) := by
  show Double.round (0.1 : ℚ) = _
  rw [Double.round_eq_of_binade (-4) 7205759403792794 (by norm_num) (by norm_num [abs_of_pos])
    (by norm_num [abs_of_pos]) (by norm_num [roundHalfEven]) (by norm_num [abs_of_pos])]
  norm_num

theorem Double.zero_def : (0 : Double) = .finite 0 := by
  show Double.finite ((0 : ℕ) : ℚ) = _
  simp

theorem Double.ofNat_def (n : ℕ) [n.AtLeastTwo] :
    (OfNat.ofNat n : Double) = .finite (OfNat.ofNat n) := by
  show Double.finite ((OfNat.ofNat n : ℕ) : ℚ) = _
  simp

theorem Double.add_def (a b : Double) : a + b = Double.add a b := rfl

theorem Double.mul_def (a b : Double) : a * b = Double.mul a b := rfl

theorem Double.round_zero : Double.round 0 = .finite 0 := by
  unfold Double.round
  rw [nearest_zero, if_neg (by norm_num), if_neg (by norm_num)]

/-- The literal `0.4` is the binary64 number `3602879701896397 / 2^53`. -/
theorem Double.lit_two_fifths :
    (0.4 : Double) = .finite (3602879701896397 / 9007199254740992) := by
  show Double.round (0.4 : ℚ) = _
  rw [Double.round_eq_of_binade (-2) 7205759403792794 (by norm_num) (by norm_num [abs_of_pos])
    (by norm_num [abs_of_pos]) (by norm_num [roundHalfEven]) (by norm_num [abs_of_pos])]
  norm_num

/-- Adding zero leaves a binary64 number, an infinity or a NaN as it is. -/
theorem Double.add_zero_eq (a : Double) (h : a.IsBinary64) : a + 0 = a := by
  rw [Double.zero_def, Double.add_def]
  cases a with
  | finite q =>
    have h₁ : Double.round q = .finite q := h
    simp only [Double.add, add_zero, h₁]
  | posInf => rfl
  | negInf => rfl
  | nan => rfl

/-- The product of zero and the lookahead `0.4` is zero. -/
theorem Double.zero_mul_lookahead : (0 : Double) * 0.4 = 0 := by
  rw [Double.lit_two_fifths, Double.zero_def, Double.mul_def]
  simp only [Double.mul, zero_mul, Double.round_zero]

/-! ## The planner callbacks -/

theorem setpoints_append (a b : List Published) :
    setpoints (a ++ b) = setpoints a ++ setpoints b := by
  induction a with
  | nil => rfl
  | cons m a ih => cases m <;> simp [setpoints, ih]

theorem setpoints_publishPositionSetpoints (position : Vector3d) :
    setpoints (publishPositionSetpoints position) = [position] := rfl

/-- C2, evaluated on the code: with a library whose `Solve` answers false (no candidate
validated) and whose selection answers a freshly constructed, invalid, empty
trajectory, one run of `statusloopCallback` on `samplePlanner` replaces the valid
reference trajectory by that selection and publishes an empty path; and for every
library the reference after the cycle is the library's selection, whatever `Solve`
answered. -/
theorem statusloop_overwrites_reference :
    ((recordingLibrary false Trajectory.new []).Solve
        ((recordingLibrary false Trajectory.new []).generateMotionPrimitives
          samplePlanner.maneuver_library_ ⟨4, 0, 102⟩ ⟨10, 0, 5⟩)).1 = false
    ∧ samplePlanner.reference_primitive_ = sampleTrajectory
    ∧ (statusloopCallback (recordingLibrary false Trajectory.new []) 7 8
        samplePlanner).1.reference_primitive_ = Trajectory.new
    ∧ (statusloopCallback (recordingLibrary false Trajectory.new []) 7 8
        samplePlanner).1.reference_primitive_ ≠ samplePlanner.reference_primitive_
    ∧ Published.vehiclePath [] ∈
        (statusloopCallback (recordingLibrary false Trajectory.new []) 7 8 samplePlanner).2
    ∧ ∀ (σ : Type) (L : ManeuverLibrary σ) (now map_now : Time) (s : TerrainPlanner σ),
        (statusloopCallback L now map_now s).1.reference_primitive_
          = (L.getRandomPrimitive (L.Solve (L.generateMotionPrimitives s.maneuver_library_
              (s.vehicle_position_.add (s.vehicle_velocity_.scale 0.4))
              s.vehicle_velocity_)).2).1 := by
  refine ⟨rfl, rfl, rfl, ?_, ?_, fun _ _ _ _ _ => rfl⟩
  · simp [statusloopCallback, recordingLibrary, samplePlanner, sampleTrajectory,
      Trajectory.new, MapPublishOnce]
  · simp [statusloopCallback, recordingLibrary, MapPublishOnce, publishTrajectory,
      publishCandidateManeuvers, Trajectory.new, Trajectory.position]

/-- C4: in a replanning cycle the maneuver library receives exactly one call of
`generateMotionPrimitives`, first of all its calls, with the start position
`p + v * 0.4` (component-wise, in `double` arithmetic: each product and each sum is
rounded to binary64, and `0.4` is the binary64 number `3602879701896397 / 2^53`, the
same in every cycle and state) and with the velocity `v` unchanged, where `p` and `v` are
the estimated position and velocity; for every library its state after the cycle is
the one reached from that call; when `v = 0` the start position is `p`, for every `p`
whose components are binary64 numbers, infinities or NaNs. -/
theorem statusloop_anchor (result : Bool) (selected : Trajectory)
    (candidates : List Trajectory) (now map_now : Time)
    (s : TerrainPlanner (List LibraryCall)) :
    (statusloopCallback (recordingLibrary result selected candidates) now map_now
        s).1.maneuver_library_
      = s.maneuver_library_ ++
        [.generateMotionPrimitives
            ⟨s.vehicle_position_.x + s.vehicle_velocity_.x * 0.4,
             s.vehicle_position_.y + s.vehicle_velocity_.y * 0.4,
             s.vehicle_position_.z + s.vehicle_velocity_.z * 0.4⟩
            s.vehicle_velocity_,
         .Solve, .getRandomPrimitive, .setGridMapTimestamp map_now.toNSec]
    ∧ (∀ (σ : Type) (L : ManeuverLibrary σ) (t : TerrainPlanner σ),
        (statusloopCallback L now map_now t).1.maneuver_library_
          = L.setGridMapTimestamp
              (L.getRandomPrimitive (L.Solve (L.generateMotionPrimitives t.maneuver_library_
                ⟨t.vehicle_position_.x + t.vehicle_velocity_.x * 0.4,
                 t.vehicle_position_.y + t.vehicle_velocity_.y * 0.4,
                 t.vehicle_position_.z + t.vehicle_velocity_.z * 0.4⟩
                t.vehicle_velocity_)).2).2 map_now.toNSec)
    ∧ (0.4 : Double) = .finite (3602879701896397 / 9007199254740992)
    ∧ (s.vehicle_velocity_ = Vector3d.zero → s.vehicle_position_.IsBinary64 →
        (statusloopCallback (recordingLibrary result selected candidates) now map_now
            s).1.maneuver_library_
          = s.maneuver_library_ ++
            [.generateMotionPrimitives s.vehicle_position_ Vector3d.zero,
             .Solve, .getRandomPrimitive, .setGridMapTimestamp map_now.toNSec]) := by
  have hlog : (statusloopCallback (recordingLibrary result selected candidates) now map_now
        s).1.maneuver_library_
      = s.maneuver_library_ ++
        [.generateMotionPrimitives
            ⟨s.vehicle_position_.x + s.vehicle_velocity_.x * 0.4,
             s.vehicle_position_.y + s.vehicle_velocity_.y * 0.4,
             s.vehicle_position_.z + s.vehicle_velocity_.z * 0.4⟩
            s.vehicle_velocity_,
         .Solve, .getRandomPrimitive, .setGridMapTimestamp map_now.toNSec] := by
    simp [statusloopCallback, recordingLibrary, MapPublishOnce, Vector3d.add, Vector3d.scale]
  refine ⟨hlog, fun σ L t => rfl, Double.lit_two_fifths, ?_⟩
  intro hv hp
  obtain ⟨hx, hy, hz⟩ := hp
  have hstart : (⟨s.vehicle_position_.x + s.vehicle_velocity_.x * 0.4,
      s.vehicle_position_.y + s.vehicle_velocity_.y * 0.4,
      s.vehicle_position_.z + s.vehicle_velocity_.z * 0.4⟩ : Vector3d)
      = s.vehicle_position_ := by
    rw [hv]
    simp only [Vector3d.zero, Double.zero_mul_lookahead, Double.add_zero_eq _ hx,
      Double.add_zero_eq _ hy, Double.add_zero_eq _ hz]
  rw [hlog, hstart, hv]

/-- Witness of `statusloop_anchor`: from the planner at rest at `(0, 0, 100)` the
library is anchored at `(0, 0, 100)` with zero velocity; from the origin with velocity
`(3, 0.5, -7)` it is anchored at the rounded `(1.2000000000000002, 0.2,
-2.8000000000000003)`, not at the exact `(6/5, 1/5, -14/5)`. -/
theorem statusloop_anchor_witness :
    restingPlanner.vehicle_velocity_ = Vector3d.zero
    ∧ restingPlanner.vehicle_position_.IsBinary64
    ∧ (statusloopCallback (recordingLibrary true sampleTrajectory []) 5 6
        restingPlanner).1.maneuver_library_
      = [.generateMotionPrimitives ⟨0, 0, 100⟩ ⟨0, 0, 0⟩,
         .Solve, .getRandomPrimitive, .setGridMapTimestamp 6]
    ∧ (statusloopCallback (recordingLibrary true sampleTrajectory []) 5 6
        roundingPlanner).1.maneuver_library_
      = [.generateMotionPrimitives
          ⟨.finite (1351079888211149 / 1125899906842624),
           .finite (3602879701896397 / 18014398509481984),
           .finite (-6305039478318695 / 2251799813685248)⟩
          ⟨3, .finite (1 / 2), .finite (-7)⟩,
         .Solve, .getRandomPrimitive, .setGridMapTimestamp 6] := by
  have hrest : restingPlanner.vehicle_position_.IsBinary64 := by
    have h0 := Double.round_intScaled 0 0 (by norm_num) (by norm_num) (by norm_num)
    have h100 := Double.round_intScaled 100 0 (by norm_num) (by norm_num) (by norm_num)
    refine ⟨?_, ?_, ?_⟩
    · show Double.round ((0 : ℕ) : ℚ) = .finite ((0 : ℕ) : ℚ)
      simpa using h0
    · show Double.round ((0 : ℕ) : ℚ) = .finite ((0 : ℕ) : ℚ)
      simpa using h0
    · show Double.round ((100 : ℕ) : ℚ) = .finite ((100 : ℕ) : ℚ)
      simpa using h100
  have hx : (0 : Double) + (3 : Double) * 0.4
      = .finite (1351079888211149 / 1125899906842624) := by
    have h₁ : Double.round (3 * (3602879701896397 / 9007199254740992))
        = .finite (1351079888211149 / 1125899906842624) := by
      rw [Double.round_eq_of_binade 0 5404319552844596 (by norm_num)
        (by norm_num [abs_of_pos]) (by norm_num [abs_of_pos]) (by norm_num [roundHalfEven])
        (by norm_num [abs_of_pos])]
      norm_num
    have h₂ : Double.round (0 + 1351079888211149 / 1125899906842624)
        = .finite (1351079888211149 / 1125899906842624) := by
      have h := Double.round_intScaled 1351079888211149 (-50) (by norm_num) (by norm_num)
        (by norm_num)
      norm_num at h ⊢
      exact h
    rw [Double.lit_two_fifths, Double.zero_def, Double.ofNat_def, Double.mul_def,
      Double.add_def]
    simp only [Double.mul, Double.add]
    rw [show ((OfNat.ofNat 3 : ℚ)) = 3 from rfl, h₁]
    simp only [Double.add, h₂]
  have hy : (0 : Double) + Double.finite (1 / 2) * 0.4
      = .finite (3602879701896397 / 18014398509481984) := by
    have h := Double.round_intScaled 3602879701896397 (-54) (by norm_num) (by norm_num)
      (by norm_num)
    have h₁ : Double.round (1 / 2 * (3602879701896397 / 9007199254740992))
        = .finite (3602879701896397 / 18014398509481984) := by
      norm_num at h ⊢
      exact h
    have h₂ : Double.round (0 + 3602879701896397 / 18014398509481984)
        = .finite (3602879701896397 / 18014398509481984) := by
      norm_num at h ⊢
      exact h
    rw [Double.lit_two_fifths, Double.zero_def, Double.mul_def, Double.add_def]
    simp only [Double.mul, Double.add, h₁, h₂]
  have hz : (0 : Double) + Double.finite (-7) * 0.4
      = .finite (-6305039478318695 / 2251799813685248) := by
    have h₁ : Double.round (-7 * (3602879701896397 / 9007199254740992))
        = .finite (-6305039478318695 / 2251799813685248) := by
      rw [Double.round_eq_of_binade 1 (-6305039478318695) (by norm_num)
        (by norm_num [abs_of_neg]) (by norm_num [abs_of_neg]) (by norm_num [roundHalfEven])
        (by norm_num [abs_of_neg])]
      norm_num
    have h₂ : Double.round (0 + -6305039478318695 / 2251799813685248)
        = .finite (-6305039478318695 / 2251799813685248) := by
      have h := Double.round_intScaled (-6305039478318695) (-51) (by norm_num) (by norm_num)
        (by norm_num)
      norm_num at h ⊢
      exact h
    rw [Double.lit_two_fifths, Double.zero_def, Double.mul_def, Double.add_def]
    simp only [Double.mul, Double.add, h₁, h₂]
  refine ⟨rfl, hrest, ?_, ?_⟩
  · exact (statusloop_anchor true sampleTrajectory [] 5 6 restingPlanner).2.2.2 rfl hrest
  · have h := (statusloop_anchor true sampleTrajectory [] 5 6 roundingPlanner).1
    rw [h]
    show [LibraryCall.generateMotionPrimitives
      ⟨(0 : Double) + (3 : Double) * 0.4, (0 : Double) + Double.finite (1 / 2) * 0.4,
        (0 : Double) + Double.finite (-7) * 0.4⟩ ⟨3, .finite (1 / 2), .finite (-7)⟩,
      .Solve, .getRandomPrimitive, .setGridMapTimestamp 6] = _
    rw [hx, hy, hz]

/-- C7: `mavposeCallback` stores the position of the message and its orientation in
the order `(w, x, y, z)` and changes nothing else, the velocity in particular;
`mavtwistCallback` stores the linear velocity of the message and changes nothing else;
so the two callbacks applied in either order give the same planner state. -/
theorem observation_callbacks_commute {σ : Type} (s : TerrainPlanner σ) (pose : PoseStamped)
    (twist : TwistStamped) :
    mavposeCallback pose s =
        { s with
          vehicle_position_ :=
            ⟨pose.pose.position.x, pose.pose.position.y, pose.pose.position.z⟩
          vehicle_attitude_ :=
            ⟨pose.pose.orientation.w, pose.pose.orientation.x, pose.pose.orientation.y,
             pose.pose.orientation.z⟩ }
    ∧ (mavposeCallback pose s).vehicle_velocity_ = s.vehicle_velocity_
    ∧ mavtwistCallback twist s =
        { s with
          vehicle_velocity_ :=
            ⟨twist.twist.linear.x, twist.twist.linear.y, twist.twist.linear.z⟩ }
    ∧ mavtwistCallback twist (mavposeCallback pose s)
        = mavposeCallback pose (mavtwistCallback twist s) :=
  ⟨rfl, rfl, rfl, rfl⟩

/-- C8: one run of `cmdloopCallback` leaves the reference trajectory (states, utility
and validity), the plan time and the vehicle position, velocity and attitude
unchanged; the state after the run is the state before with only the pose history
replaced. -/
theorem cmdloop_frame {σ : Type} (now : Time) (s : TerrainPlanner σ) :
    (cmdloopCallback now s).1.reference_primitive_ = s.reference_primitive_
    ∧ (cmdloopCallback now s).1.reference_primitive_.states = s.reference_primitive_.states
    ∧ (cmdloopCallback now s).1.reference_primitive_.utility = s.reference_primitive_.utility
    ∧ (cmdloopCallback now s).1.reference_primitive_.validity
        = s.reference_primitive_.validity
    ∧ (cmdloopCallback now s).1.plan_time_ = s.plan_time_
    ∧ (cmdloopCallback now s).1.vehicle_position_ = s.vehicle_position_
    ∧ (cmdloopCallback now s).1.vehicle_velocity_ = s.vehicle_velocity_
    ∧ (cmdloopCallback now s).1.vehicle_attitude_ = s.vehicle_attitude_
    ∧ (cmdloopCallback now s).1
        = { s with posehistory_vector_ := (cmdloopCallback now s).1.posehistory_vector_ } :=
  ⟨rfl, rfl, rfl, rfl, rfl, rfl, rfl, rfl, rfl⟩

/-- The product of a positive binary64 number and a rounded non-negative number is
monotone in the number that is rounded. -/
theorem Double.mul_round_mono {a : ℚ} (ha : 0 < a) {x y : ℚ} (hx : 0 ≤ x) (hxy : x ≤ y) :
    Double.finite a * Double.round x ≤ Double.finite a * Double.round y := by
  have h₁ := nearest_mono hx hxy
  have h₂ := nearest_nonneg hx
  have hpow : (0 : ℚ) < 2 ^ 1024 := by norm_num
  have htop : ∀ z : ℚ, Double.le (Double.round z) .posInf = true := by
    intro z
    unfold Double.round
    split_ifs <;> rfl
  show Double.le (Double.mul _ _) (Double.mul _ _) = true
  unfold Double.round
  by_cases hbig : (2 : ℚ) ^ 1024 ≤ Double.nearest x
  · rw [if_pos hbig, if_pos (le_trans hbig h₁)]
    simp only [Double.mul, ne_of_gt ha, ha, if_true, if_false, Double.le]
  · rw [if_neg hbig, if_neg (by linarith)]
    by_cases hbig' : (2 : ℚ) ^ 1024 ≤ Double.nearest y
    · rw [if_pos hbig']
      simp only [Double.mul, ne_of_gt ha, ha, if_true, if_false]
      exact htop _
    · rw [if_neg hbig', if_neg (by linarith)]
      simp only [Double.mul]
      exact Double.round_mono (mul_nonneg ha.le h₂) (mul_le_mul_of_nonneg_left h₁ ha.le)

/-- The slot bounds `0.1 * i` of the loop of `cmdloopCallback` do not decrease with
`i`. -/
theorem slot_mono {i j : ℕ} (h : i ≤ j) :
    (0.1 : Double) * Double.ofInt i ≤ 0.1 * Double.ofInt j := by
  rw [Double.lit_tenth]
  unfold Double.ofInt
  exact Double.mul_round_mono (by norm_num) (by positivity) (by exact_mod_cast h)

/-- A time that is not before the bound of slot `k` is not before the bound of an
earlier slot. -/
theorem not_lt_slot_of_le {t : Double} {j k : ℕ} (h : j ≤ k)
    (hk : ¬ t < 0.1 * Double.ofInt k) : ¬ t < 0.1 * Double.ofInt j :=
  fun hj => hk (Double.lt_of_lt_of_le hj (slot_mono h))

theorem loop_length_le_one (t : Double) (ps : List Vector3d) (i : ℕ) :
    (setpoints (cmdloopCallback.loop t ps i)).length ≤ 1 := by
  induction ps generalizing i with
  | nil => simp [cmdloopCallback.loop, setpoints]
  | cons p ps ih =>
    unfold cmdloopCallback.loop
    split_ifs
    · simp [setpoints_publishPositionSetpoints]
    · exact ih (i + 1)

theorem loop_eq_nil (t : Double) (ps : List Vector3d) (i : ℕ)
    (h : ∀ j : ℕ, j < ps.length → ¬ t < 0.1 * Double.ofInt ((i + j : ℕ) : ℤ)) :
    setpoints (cmdloopCallback.loop t ps i) = [] := by
  induction ps generalizing i with
  | nil => simp [cmdloopCallback.loop, setpoints]
  | cons p ps ih =>
    unfold cmdloopCallback.loop
    have h₀ : ¬ t < 0.1 * Double.ofInt ((i : ℕ) : ℤ) := h 0 (by simp)
    rw [if_neg h₀]
    apply ih (i + 1)
    intro j hj
    have := h (j + 1) (by simpa using hj)
    rwa [show i + (j + 1) = i + 1 + j by omega] at this

theorem loop_eq_getElem (t : Double) (ps : List Vector3d) (i k : ℕ) (hk : k < ps.length)
    (hlt : t < 0.1 * Double.ofInt ((i + k : ℕ) : ℤ))
    (hnot : ∀ j : ℕ, j < k → ¬ t < 0.1 * Double.ofInt ((i + j : ℕ) : ℤ)) :
    setpoints (cmdloopCallback.loop t ps i) = (ps[k]?).toList := by
  induction ps generalizing i k with
  | nil => simp at hk
  | cons p ps ih =>
    unfold cmdloopCallback.loop
    cases k with
    | zero =>
      have h₀ : t < 0.1 * Double.ofInt ((i : ℕ) : ℤ) := hlt
      rw [if_pos h₀, setpoints_publishPositionSetpoints]
      simp
    | succ k =>
      have h₀ : ¬ t < 0.1 * Double.ofInt ((i : ℕ) : ℤ) := hnot 0 (Nat.succ_pos k)
      rw [if_neg h₀]
      have hk' : k < ps.length := by simpa using hk
      rw [List.getElem?_cons_succ]
      apply ih (i + 1) k hk'
      · rwa [show i + (k + 1) = i + 1 + k by omega] at hlt
      · intro j hj
        have := hnot (j + 1) (by omega)
        rwa [show i + (j + 1) = i + 1 + j by omega] at this

/-- The slot test of the exact loop in terms of the integer part of `10 * t`. -/
theorem slot_lt_iff (t : ℚ) (j : ℕ) :
    t < 1 / 10 * ((j + 1 : ℕ) : ℚ) ↔ ⌊10 * t⌋.toNat < j + 1 := by
  rw [Int.toNat_lt' (Nat.succ_ne_zero j), Int.floor_lt]
  push_cast
  constructor <;> intro h <;> linarith

/-- The exact loop started at counter `j + 1`, not beyond the slot of `t`, publishes the
position `⌊10 * t⌋ - j` places further, when there is one. -/
theorem loopExact_setpoints (t : ℚ) (ps : List Vector3d) (j : ℕ)
    (hj : j ≤ ⌊10 * t⌋.toNat) :
    setpoints (cmdloopCallback.loopExact t ps (j + 1))
      = (ps[⌊10 * t⌋.toNat - j]?).toList := by
  induction ps generalizing j with
  | nil => simp [cmdloopCallback.loopExact, setpoints]
  | cons p ps ih =>
    unfold cmdloopCallback.loopExact
    by_cases h : t < 1 / 10 * ((j + 1 : ℕ) : ℚ)
    · rw [if_pos h, setpoints_publishPositionSetpoints]
      have h₁ := (slot_lt_iff t j).1 h
      have h₂ : ⌊10 * t⌋.toNat - j = 0 := by omega
      simp [h₂]
    · rw [if_neg h]
      have h₁ : ¬ ⌊10 * t⌋.toNat < j + 1 := fun h₂ => h ((slot_lt_iff t j).2 h₂)
      have h₂ : ⌊10 * t⌋.toNat - j = (⌊10 * t⌋.toNat - (j + 1)) + 1 := by omega
      rw [ih (j + 1) (by omega), h₂, List.getElem?_cons_succ]

/-- The two loops publish the same when their slot tests agree on the slots of the
positions that are left. -/
theorem loop_eq_loopExact (q : ℚ) (ps : List Vector3d) (i : ℕ)
    (h : ∀ j : ℕ, j < ps.length →
      (Double.finite q < 0.1 * Double.ofInt ((i + j : ℕ) : ℤ) ↔ q < 1 / 10 * ((i + j : ℕ) : ℚ))) :
    cmdloopCallback.loop (.finite q) ps i = cmdloopCallback.loopExact q ps i := by
  induction ps generalizing i with
  | nil => rfl
  | cons p ps ih =>
    unfold cmdloopCallback.loop cmdloopCallback.loopExact
    have h₀ := h 0 (by simp)
    simp only [Nat.add_zero] at h₀
    have hrest : cmdloopCallback.loop (.finite q) ps (i + 1)
        = cmdloopCallback.loopExact q ps (i + 1) := by
      apply ih
      intro j hj
      have := h (j + 1) (by simpa using hj)
      rwa [show i + (j + 1) = i + 1 + j by omega] at this
    by_cases hq : q < 1 / 10 * ((i : ℕ) : ℚ)
    · rw [if_pos (h₀.2 hq), if_pos hq]
    · rw [if_neg (fun hc => hq (h₀.1 hc)), if_neg hq, hrest]

theorem cmdloopCallback_setpoints {σ : Type} (now : Time) (s : TerrainPlanner σ) :
    setpoints (cmdloopCallback now s).2
      = setpoints (cmdloopCallback.loop (now.sub s.plan_time_).toSec
          s.reference_primitive_.position 1) := by
  simp [cmdloopCallback, setpoints_append, publishVehiclePose, publishPoseHistory, setpoints]

/-- The bound of the first slot, `0.1 * 1`, is the binary64 number `0.1`. -/
theorem slot_one : (0.1 : Double) * Double.ofInt 1 = 0.1 := by
  have h := Double.round_intScaled 3602879701896397 (-55) (by norm_num) (by norm_num)
    (by norm_num)
  rw [Double.ofInt_eq 1 (by norm_num), Double.lit_tenth, Double.mul_def]
  simp only [Double.mul]
  norm_num at h ⊢
  exact h

/-- C10: one run of `cmdloopCallback` runs its loop at the time `t` since the plan time
on the positions `p` of the reference trajectory, and for every `t` and `p` the loop
publishes at most one position setpoint: it is `p[k]` for the least index `k` with
`t < 0.1 * (k + 1)`, the test being the one of the code (`double` comparison with the
rounded product), when there is such a `k` below the number `n` of positions, and
nothing otherwise; the index is 0 for every `t < 0.1`, negative `t` included; nothing is
published when `t ≥ 0.1 * n` or when `p` is empty; the index does not decrease when `t`
grows; and in exact arithmetic (the loop `cmdloopCallback.loopExact`) the index is the
integer part of `10 * t`, 0 for negative `t`, which the code shares wherever its slot
tests agree with the exact ones. -/
theorem cmdloop_setpoint {σ : Type} (now : Time) (s : TerrainPlanner σ) (t : Double)
    (p : List Vector3d) :
    setpoints (cmdloopCallback now s).2
        = setpoints (cmdloopCallback.loop (now.sub s.plan_time_).toSec
            s.reference_primitive_.position 1)
    ∧ (setpoints (cmdloopCallback.loop t p 1)).length ≤ 1
    ∧ (∀ k : ℕ, k < p.length → t < 0.1 * Double.ofInt ((k + 1 : ℕ) : ℤ) →
        (∀ j : ℕ, j < k → ¬ t < 0.1 * Double.ofInt ((j + 1 : ℕ) : ℤ)) →
        setpoints (cmdloopCallback.loop t p 1) = (p[k]?).toList)
    ∧ ((∀ j : ℕ, j < p.length → ¬ t < 0.1 * Double.ofInt ((j + 1 : ℕ) : ℤ)) →
        setpoints (cmdloopCallback.loop t p 1) = [])
    ∧ (t < 0.1 → setpoints (cmdloopCallback.loop t p 1) = (p[0]?).toList)
    ∧ (0.1 * Double.ofInt ((p.length : ℕ) : ℤ) ≤ t →
        setpoints (cmdloopCallback.loop t p 1) = [])
    ∧ setpoints (cmdloopCallback.loop t [] 1) = []
    ∧ (∀ (later : Double) (k k' : ℕ), t ≤ later →
        (t < 0.1 * Double.ofInt ((k + 1 : ℕ) : ℤ)
          ∧ ∀ j : ℕ, j < k → ¬ t < 0.1 * Double.ofInt ((j + 1 : ℕ) : ℤ)) →
        (later < 0.1 * Double.ofInt ((k' + 1 : ℕ) : ℤ)
          ∧ ∀ j : ℕ, j < k' → ¬ later < 0.1 * Double.ofInt ((j + 1 : ℕ) : ℤ)) →
        k ≤ k')
    ∧ (∀ q : ℚ,
        setpoints (cmdloopCallback.loopExact q p 1) = (p[⌊10 * q⌋.toNat]?).toList
        ∧ (q < 1 / 10 * ((⌊10 * q⌋.toNat : ℚ) + 1)
          ∧ ∀ j : ℕ, q < 1 / 10 * ((j : ℚ) + 1) → ⌊10 * q⌋.toNat ≤ j)
        ∧ (q < 1 / 10 → ⌊10 * q⌋.toNat = 0)
        ∧ (0 ≤ q → ((⌊10 * q⌋.toNat : ℕ) : ℤ) = ⌊10 * q⌋)
        ∧ ((∀ j : ℕ, j < p.length →
              (Double.finite q < 0.1 * Double.ofInt ((j + 1 : ℕ) : ℤ)
                ↔ q < 1 / 10 * ((j + 1 : ℕ) : ℚ))) →
            cmdloopCallback.loop (.finite q) p 1 = cmdloopCallback.loopExact q p 1)) := by
  have hfirst : ∀ k : ℕ, k < p.length → t < 0.1 * Double.ofInt ((k + 1 : ℕ) : ℤ) →
      (∀ j : ℕ, j < k → ¬ t < 0.1 * Double.ofInt ((j + 1 : ℕ) : ℤ)) →
      setpoints (cmdloopCallback.loop t p 1) = (p[k]?).toList := by
    intro k hk hlt hnot
    apply loop_eq_getElem t p 1 k hk
    · rwa [Nat.add_comm 1 k]
    · intro j hj
      rw [Nat.add_comm 1 j]
      exact hnot j hj
  have hnone : (∀ j : ℕ, j < p.length → ¬ t < 0.1 * Double.ofInt ((j + 1 : ℕ) : ℤ)) →
      setpoints (cmdloopCallback.loop t p 1) = [] := by
    intro h
    apply loop_eq_nil t p 1
    intro j hj
    rw [Nat.add_comm 1 j]
    exact h j hj
  refine ⟨cmdloopCallback_setpoints now s, loop_length_le_one t p 1, hfirst, hnone, ?_, ?_,
    ?_, ?_, ?_⟩
  · intro h
    cases p with
    | nil => simp [cmdloopCallback.loop, setpoints]
    | cons a rest =>
      apply hfirst 0 (by simp)
      · have h₁ : (0.1 : Double) * Double.ofInt (((0 + 1 : ℕ) : ℕ) : ℤ) = 0.1 := slot_one
        rw [h₁]
        exact h
      · intro j hj
        omega
  · intro h
    apply hnone
    intro j hj hlt
    exact Double.not_lt_of_le h (Double.lt_of_lt_of_le hlt (slot_mono (by omega)))
  · simp [cmdloopCallback.loop, setpoints]
  · intro later k k' hle hk hk'
    by_contra hcon
    have hlt : k' < k := by omega
    exact hk.2 k' hlt (Double.lt_of_le_of_lt hle hk'.1)
  · intro q
    have hslot : ∀ j : ℕ, q < 1 / 10 * ((j : ℚ) + 1) ↔ ⌊10 * q⌋.toNat < j + 1 := by
      intro j
      have h := slot_lt_iff q j
      push_cast at h
      exact h
    refine ⟨?_, ⟨?_, ?_⟩, ?_, ?_, ?_⟩
    · have h := loopExact_setpoints q p 0 (Nat.zero_le _)
      simpa using h
    · exact (hslot _).2 (Nat.lt_succ_self _)
    · intro j hj
      exact Nat.lt_succ_iff.1 ((hslot j).1 hj)
    · intro h
      have h₁ := (hslot 0).1 (by simpa using h)
      omega
    · intro h
      exact Int.toNat_of_nonneg (Int.floor_nonneg.2 (by linarith))
    · intro h
      apply loop_eq_loopExact q p 1
      intro j hj
      rw [Nat.add_comm 1 j]
      exact h j hj

/-- The bound `0.1 * i` of slot `i` is the rounded product of the binary64 number `0.1`
and `i`. -/
theorem slot_eq_round (i : ℕ) (hi : i < 2 ^ 53) :
    (0.1 : Double) * Double.ofInt (i : ℤ)
      = Double.round (3602879701896397 / 36028797018963968 * (i : ℚ)) := by
  rw [Double.ofInt_eq (i : ℤ) (by rw [abs_of_nonneg (by positivity)]; exact_mod_cast hi),
    Double.lit_tenth, Double.mul_def]
  simp only [Double.mul, Int.cast_natCast]

/-- The literal `1e-9` is the binary64 number `4835703278458517 / 2^82`. -/
theorem Double.lit_nano :
    (1e-9 : Double) = .finite (4835703278458517 / 4835703278458516698824704) := by
  show Double.round (1e-9 : ℚ) = _
  rw [Double.round_eq_of_binade (-30) 4835703278458517 (by norm_num)
    (by norm_num [abs_of_pos]) (by norm_num [abs_of_pos]) (by norm_num [roundHalfEven])
    (by norm_num [abs_of_pos])]
  norm_num

/-- The time 1.2 s after the plan time of `samplePlanner`, as `toSec()` returns it: the
binary64 number nearest to 1.2, which is below 6/5. -/
theorem toSec_sample :
    ((⟨1200000000⟩ : Time).sub samplePlanner.plan_time_).toSec
      = .finite (5404319552844595 / 4503599627370496) := by
  have hsub : (⟨1200000000⟩ : Time).sub samplePlanner.plan_time_ = ⟨1, 200000000⟩ := by
    rfl
  have hprod : Double.round (4835703278458517 / 4835703278458516698824704 * 200000000)
      = .finite (3602879701896397 / 18014398509481984) := by
    rw [Double.round_eq_of_binade (-3) 7205759403792794 (by norm_num)
      (by norm_num [abs_of_pos]) (by norm_num [abs_of_pos]) (by norm_num [roundHalfEven])
      (by norm_num [abs_of_pos])]
    norm_num
  have hsum : Double.round (1 + 3602879701896397 / 18014398509481984)
      = .finite (5404319552844595 / 4503599627370496) := by
    rw [Double.round_eq_of_binade 0 5404319552844595 (by norm_num)
      (by norm_num [abs_of_pos]) (by norm_num [abs_of_pos]) (by norm_num [roundHalfEven])
      (by norm_num [abs_of_pos])]
    norm_num
  rw [hsub]
  unfold Duration.toSec
  rw [Double.ofInt_eq 1 (by norm_num), Double.ofInt_eq 200000000 (by norm_num),
    Double.lit_nano, Double.mul_def, Double.add_def]
  simp only [Double.mul, Double.add, Int.cast_one, Int.cast_ofNat]
  rw [hprod]
  simp only [Double.add]
  rw [hsum]

/-- Witness of `cmdloop_setpoint`, 1.2 s after the plan time, where `toSec()` returns
the binary64 number nearest to 1.2 and the bound `0.1 * 12` of slot 12 is rounded up to
`1.2000000000000002`: on the thirteen positions of `longTrajectory` the position with
index 11 is published; on the three positions of `sampleTrajectory` nothing is
published; half a second before the plan time the index is 0; and in exact arithmetic
the index at a quarter of a second is 2. -/
theorem cmdloop_setpoint_witness :
    setpoints (cmdloopCallback ⟨1200000000⟩ longPlanner).2 = [⟨.finite 11, 0, 0⟩]
    ∧ setpoints (cmdloopCallback ⟨1200000000⟩ samplePlanner).2 = []
    ∧ (Double.finite (-1 / 2) < 0.1
      ∧ setpoints (cmdloopCallback.loop (.finite (-1 / 2)) sampleTrajectory.position 1)
          = [⟨0, 0, 100⟩])
    ∧ ((1 / 4 : ℚ) < 1 / 10 * (((2 : ℕ) : ℚ) + 1) ∧ ⌊10 * (1 / 4 : ℚ)⌋.toNat ≤ 2)
    ∧ ((0 : ℚ) ≤ 1 / 4 ∧ ((⌊10 * (1 / 4 : ℚ)⌋.toNat : ℕ) : ℤ) = ⌊10 * (1 / 4 : ℚ)⌋) := by
  have ht := toSec_sample
  have hs3 : (0.1 : Double) * Double.ofInt ((3 : ℕ) : ℤ)
      = .finite (1351079888211149 / 4503599627370496) := by
    rw [slot_eq_round 3 (by norm_num),
      Double.round_eq_of_binade (-2) 5404319552844596 (by norm_num)
        (by norm_num [abs_of_pos]) (by norm_num [abs_of_pos]) (by norm_num [roundHalfEven])
        (by norm_num [abs_of_pos])]
    norm_num
  have hs11 : (0.1 : Double) * Double.ofInt ((11 : ℕ) : ℤ)
      = .finite (2476979795053773 / 2251799813685248) := by
    rw [slot_eq_round 11 (by norm_num),
      Double.round_eq_of_binade 0 4953959590107546 (by norm_num)
        (by norm_num [abs_of_pos]) (by norm_num [abs_of_pos]) (by norm_num [roundHalfEven])
        (by norm_num [abs_of_pos])]
    norm_num
  have hs12 : (0.1 : Double) * Double.ofInt ((12 : ℕ) : ℤ)
      = .finite (1351079888211149 / 1125899906842624) := by
    rw [slot_eq_round 12 (by norm_num),
      Double.round_eq_of_binade 0 5404319552844596 (by norm_num)
        (by norm_num [abs_of_pos]) (by norm_num [abs_of_pos]) (by norm_num [roundHalfEven])
        (by norm_num [abs_of_pos])]
    norm_num
  have hlt12 : Double.finite (5404319552844595 / 4503599627370496)
      < 0.1 * Double.ofInt ((11 + 1 : ℕ) : ℤ) := by
    rw [show (11 + 1 : ℕ) = 12 from rfl, hs12]
    show Double.lt _ _ = true
    simp only [Double.lt, decide_eq_true_eq]
    norm_num
  have hnot11 : ¬ Double.finite (5404319552844595 / 4503599627370496)
      < 0.1 * Double.ofInt ((11 : ℕ) : ℤ) := by
    rw [hs11]
    show ¬ Double.lt _ _ = true
    simp only [Double.lt, decide_eq_true_eq]
    norm_num
  have hle3 : (0.1 : Double) * Double.ofInt ((3 : ℕ) : ℤ)
      ≤ Double.finite (5404319552844595 / 4503599627370496) := by
    rw [hs3]
    show Double.le _ _ = true
    simp only [Double.le, decide_eq_true_eq]
    norm_num
  have hneg : Double.finite (-1 / 2) < 0.1 := by
    rw [Double.lit_tenth]
    show Double.lt _ _ = true
    simp only [Double.lt, decide_eq_true_eq]
    norm_num
  have hquarter : (1 / 4 : ℚ) < 1 / 10 * (((2 : ℕ) : ℚ) + 1) := by norm_num
  refine ⟨?_, ?_, ⟨hneg, ?_⟩, ⟨hquarter, ?_⟩, ⟨by norm_num, ?_⟩⟩
  · have h := cmdloop_setpoint ⟨1200000000⟩ longPlanner
      (.finite (5404319552844595 / 4503599627370496)) longPlanner.reference_primitive_.position
    have ht' : ((⟨1200000000⟩ : Time).sub longPlanner.plan_time_).toSec
        = .finite (5404319552844595 / 4503599627370496) := ht
    rw [h.1, ht', h.2.2.1 11 (by decide) hlt12
      (fun j hj => not_lt_slot_of_le (by omega) hnot11)]
    simp [longPlanner, longTrajectory, Trajectory.position_eq_map, List.range_succ]
  · have h := cmdloop_setpoint ⟨1200000000⟩ samplePlanner
      (.finite (5404319552844595 / 4503599627370496))
      samplePlanner.reference_primitive_.position
    rw [h.1, ht]
    exact h.2.2.2.2.2.1 hle3
  · exact ((cmdloop_setpoint 0 samplePlanner (.finite (-1 / 2))
      sampleTrajectory.position).2.2.2.2.1 hneg).trans rfl
  · exact ((cmdloop_setpoint 0 samplePlanner 0 []).2.2.2.2.2.2.2.2 (1 / 4)).2.1.2 2 hquarter
  · exact ((cmdloop_setpoint 0 samplePlanner 0 []).2.2.2.2.2.2.2.2 (1 / 4)).2.2.2.1
      (by norm_num)

/-! ## The published path and the pose history -/

theorem foldl_insert_front_eq_reverse_map {α β : Type} (f : α → β) (l : List α)
    (acc : List β) :
    l.foldl (fun out a => f a :: out) acc = (l.map f).reverse ++ acc := by
  induction l generalizing acc with
  | nil => simp
  | cons a l ih => simp [ih]

theorem vector3d2PoseStampedMsg_injective (orientation : Vector4d) :
    Function.Injective (fun pos => vector3d2PoseStampedMsg pos orientation) := by
  intro a b h
  cases a
  cases b
  simpa [vector3d2PoseStampedMsg] using h

theorem vehiclePathPoses_publishTrajectory (trajectory : List Vector3d) :
    vehiclePathPoses (publishTrajectory trajectory)
      = (trajectory.map (fun pos => vector3d2PoseStampedMsg pos ⟨1, 0, 0, 0⟩)).reverse := by
  simp [publishTrajectory, vehiclePathPoses, foldl_insert_front_eq_reverse_map]

/-- C11: `publishTrajectory` sends one path; it has as many poses as there are input
positions and its pose list is the reversal of the input: the pose with index `i`
carries the position with input index `n - 1 - i`, every pose has the fixed
orientation `(1, 0, 0, 0)` (w = 1), and the poses are in input order exactly when the
input equals its own reversal. -/
theorem publishTrajectory_reversed (trajectory : List Vector3d) :
    publishTrajectory trajectory
        = [.vehiclePath (vehiclePathPoses (publishTrajectory trajectory))]
    ∧ (vehiclePathPoses (publishTrajectory trajectory)).length = trajectory.length
    ∧ vehiclePathPoses (publishTrajectory trajectory)
        = (trajectory.map (fun pos => vector3d2PoseStampedMsg pos ⟨1, 0, 0, 0⟩)).reverse
    ∧ (∀ i : ℕ, i < trajectory.length →
        (vehiclePathPoses (publishTrajectory trajectory))[i]?
          = (trajectory[trajectory.length - 1 - i]?).map
              (fun pos => vector3d2PoseStampedMsg pos ⟨1, 0, 0, 0⟩))
    ∧ (∀ pose ∈ vehiclePathPoses (publishTrajectory trajectory),
        pose.pose.orientation = { w := 1, x := 0, y := 0, z := 0 })
    ∧ (vehiclePathPoses (publishTrajectory trajectory)
          = trajectory.map (fun pos => vector3d2PoseStampedMsg pos ⟨1, 0, 0, 0⟩)
        ↔ trajectory.reverse = trajectory) := by
  have hposes := vehiclePathPoses_publishTrajectory trajectory
  refine ⟨?_, ?_, hposes, ?_, ?_, ?_⟩
  · simp [publishTrajectory, vehiclePathPoses]
  · simp [hposes]
  · intro i hi
    rw [hposes, List.getElem?_reverse (by simpa using hi), List.getElem?_map]
    simp
  · intro pose hpose
    rw [hposes] at hpose
    simp only [List.mem_reverse, List.mem_map] at hpose
    obtain ⟨pos, _, rfl⟩ := hpose
    rfl
  · rw [hposes, ← List.map_reverse]
    constructor
    · intro h
      exact List.map_injective_iff.2 (vector3d2PoseStampedMsg_injective ⟨1, 0, 0, 0⟩) h
    · intro h
      rw [h]

/-- Witness of `publishTrajectory_reversed` on the three positions of
`sampleTrajectory`, at x = 0, 1, 2: the first published pose carries the last input
position. -/
theorem publishTrajectory_reversed_witness :
    0 < sampleTrajectory.position.length
    ∧ (vehiclePathPoses (publishTrajectory sampleTrajectory.position))[0]?
        = some (vector3d2PoseStampedMsg ⟨2, 0, 100⟩ ⟨1, 0, 0, 0⟩) :=
  ⟨by decide,
   ((publishTrajectory_reversed sampleTrajectory.position).2.2.2.1 0 (by decide)).trans rfl⟩

theorem take_append_take {α : Type} (a b : List α) (w : ℕ) :
    (a ++ b.take w).take w = (a ++ b).take w := by
  rw [List.take_append_eq_append_take, List.take_append_eq_append_take, List.take_take,
    Nat.min_eq_left (Nat.sub_le _ _)]

/-- One run of `publishPoseHistory` on a history within the window: the new pose comes
first and the result is cut to the window. -/
theorem publishPoseHistory_history {σ : Type} (s : TerrainPlanner σ)
    (h : s.posehistory_vector_.length ≤ 20000) :
    (publishPoseHistory s).1.posehistory_vector_
      = (vector3d2PoseStampedMsg s.vehicle_position_ ⟨1, 0, 0, 0⟩ ::
          s.posehistory_vector_).take 20000 := by
  simp only [publishPoseHistory, posehistory_window_, List.length_cons]
  split
  · rw [List.dropLast_eq_take, List.length_cons]
    have h₁ : s.posehistory_vector_.length + 1 - 1 = 20000 := by omega
    rw [h₁]
  · rw [List.take_of_length_le (by simp only [List.length_cons]; omega)]

/-- The history after a run of calls is the newest-first list of the poses of the
calls, followed by the earlier history, cut to the window. -/
theorem poseHistoryAfter_eq_take {σ : Type} (s : TerrainPlanner σ) (positions : List Vector3d)
    (h : s.posehistory_vector_.length ≤ 20000) :
    poseHistoryAfter s positions
      = ((positions.map (fun pos => vector3d2PoseStampedMsg pos ⟨1, 0, 0, 0⟩)).reverse
          ++ s.posehistory_vector_).take 20000 := by
  induction positions generalizing s with
  | nil => simpa [poseHistoryAfter] using (List.take_of_length_le h).symm
  | cons p ps ih =>
    have hstep := publishPoseHistory_history { s with vehicle_position_ := p } h
    have hlen : (publishPoseHistory { s with vehicle_position_ := p }).1.posehistory_vector_.length
        ≤ 20000 := by
      rw [hstep, List.length_take]
      exact Nat.min_le_left _ _
    have hrec : poseHistoryAfter s (p :: ps)
        = poseHistoryAfter (publishPoseHistory { s with vehicle_position_ := p }).1 ps := rfl
    rw [hrec, ih _ hlen, hstep, take_append_take]
    simp

/-- C12: starting from an empty history, after `k` runs of `publishPoseHistory` (one
per entry of `positions`, the estimated position at the time of the run) the history
has length `min k 20000`, so at most 20000; it is the newest-first list of the poses
of the last runs, its first element being the pose of the most recent run; and a run
on a full window puts the new pose first and drops exactly the last, oldest, entry,
while a run on a window that is not full drops nothing. -/
theorem poseHistory_window {σ : Type} (s : TerrainPlanner σ) (positions : List Vector3d)
    (h : s.posehistory_vector_ = []) :
    (poseHistoryAfter s positions).length = min positions.length 20000
    ∧ (poseHistoryAfter s positions).length ≤ 20000
    ∧ poseHistoryAfter s positions
        = ((positions.map (fun pos => vector3d2PoseStampedMsg pos ⟨1, 0, 0, 0⟩)).reverse).take
            20000
    ∧ (∀ last : Vector3d, positions.getLast? = some last →
        (poseHistoryAfter s positions).head?
          = some (vector3d2PoseStampedMsg last ⟨1, 0, 0, 0⟩))
    ∧ (∀ t : TerrainPlanner σ, t.posehistory_vector_.length = 20000 →
        (publishPoseHistory t).1.posehistory_vector_
            = vector3d2PoseStampedMsg t.vehicle_position_ ⟨1, 0, 0, 0⟩ ::
                t.posehistory_vector_.dropLast
          ∧ (publishPoseHistory t).1.posehistory_vector_.length = 20000)
    ∧ (∀ t : TerrainPlanner σ, t.posehistory_vector_.length < 20000 →
        (publishPoseHistory t).1.posehistory_vector_
          = vector3d2PoseStampedMsg t.vehicle_position_ ⟨1, 0, 0, 0⟩ ::
              t.posehistory_vector_) := by
  have hall := poseHistoryAfter_eq_take s positions (by simp [h])
  rw [h, List.append_nil] at hall
  refine ⟨?_, ?_, hall, ?_, ?_, ?_⟩
  · rw [hall, List.length_take, List.length_reverse, List.length_map, Nat.min_comm]
  · rw [hall, List.length_take]
    exact Nat.min_le_left _ _
  · intro last hlast
    rw [hall, List.head?_take, if_neg (by decide), List.head?_reverse, List.getLast?_map,
      hlast]
    rfl
  · intro t ht
    have hpop : (publishPoseHistory t).1.posehistory_vector_
        = vector3d2PoseStampedMsg t.vehicle_position_ ⟨1, 0, 0, 0⟩ ::
            t.posehistory_vector_.dropLast := by
      have hne : t.posehistory_vector_ ≠ [] := by
        intro hnil
        rw [hnil] at ht
        simp at ht
      simp only [publishPoseHistory, posehistory_window_, List.length_cons]
      rw [if_pos (by omega), List.dropLast_cons_of_ne_nil hne]
    refine ⟨hpop, ?_⟩
    rw [hpop, List.length_cons, List.length_dropLast]
    omega
  · intro t ht
    simp only [publishPoseHistory, posehistory_window_, List.length_cons]
    rw [if_neg (by omega)]

/-- Witness of `poseHistory_window`: two runs on `samplePlanner`, whose history is
empty, at the positions x = 1 and then x = 2, leave the two poses newest first; one
run on `fullHistoryPlanner`, whose history has 20000 entries, keeps 20000 entries. -/
theorem poseHistory_window_witness :
    samplePlanner.posehistory_vector_ = []
    ∧ poseHistoryAfter samplePlanner [⟨1, 0, 100⟩, ⟨2, 0, 100⟩]
        = [vector3d2PoseStampedMsg ⟨2, 0, 100⟩ ⟨1, 0, 0, 0⟩,
           vector3d2PoseStampedMsg ⟨1, 0, 100⟩ ⟨1, 0, 0, 0⟩]
    ∧ (poseHistoryAfter samplePlanner [⟨1, 0, 100⟩, ⟨2, 0, 100⟩]).head?
        = some (vector3d2PoseStampedMsg ⟨2, 0, 100⟩ ⟨1, 0, 0, 0⟩)
    ∧ fullHistoryPlanner.posehistory_vector_.length = 20000
    ∧ (publishPoseHistory fullHistoryPlanner).1.posehistory_vector_.length = 20000 := by
  have hfull : fullHistoryPlanner.posehistory_vector_.length = 20000 := by
    show (List.replicate 20000 (vector3d2PoseStampedMsg Vector3d.zero ⟨1, 0, 0, 0⟩)).length
      = 20000
    rw [List.length_replicate]
  refine ⟨rfl, ?_, ?_, hfull, ?_⟩
  · exact (poseHistory_window samplePlanner [⟨1, 0, 100⟩, ⟨2, 0, 100⟩] rfl).2.2.1.trans
      (by simp)
  · exact (poseHistory_window samplePlanner [⟨1, 0, 100⟩, ⟨2, 0, 100⟩] rfl).2.2.2.1
      ⟨2, 0, 100⟩ rfl
  · exact ((poseHistory_window samplePlanner [] rfl).2.2.2.2.1 fullHistoryPlanner hfull).2

end TerrainNavigation
